import Mathlib

/-!
# Verification of the `dtypes` type-descriptor engine

Shallow embedding of `src/wandb/sdk_py27/interface/dtypes.py`: a lattice of
type descriptors with inference (`type_of`), narrowing (`assign`),
canonical JSON serialization (`to_json` / `type_from_dict`) and
serialization-based equality (`Type.__eq__`).

Python runtime values are embedded as `PVal`, descriptors as `WBType`,
raised exceptions as `Except String`.  Model choices (each noted again at
its definition):

* floating-point numbers are omitted (`_NumberType` keeps its `int` arm);
* dictionary keys are strings (the JSON schema layer only ever uses
  string keys);
* object identity is abstracted: a generic Python object is represented
  by its class name only (`PVal.vobj`), since descriptors never store
  objects except inside `Const` sets;
* Python's `repr` of strings always uses single quotes in the model
  (CPython switches to double quotes when the text contains a single
  quote; this affects only the relative sort order of unions whose
  serialized representations contain quote characters);
* `repr` of a generic object (which in CPython contains a memory
  address) is replaced by an injective class-name based stand-in.
-/

/-- Embedded Python runtime values: `None`, `bool`, `int`, `str`, `list`,
`tuple`, `set`, `frozenset`, `dict` (string keys), and a fallback for
instances of any other class, kept as the class name. -/
inductive PVal where
  | vnone
  | vbool (b : Bool)
  | vint (n : Int)
  | vstr (s : String)
  | vlist (xs : List PVal)
  | vtuple (xs : List PVal)
  | vset (xs : List PVal)
  | vfrozenset (xs : List PVal)
  | vdict (m : List (String × PVal))
  | vobj (className : String)

/-- The `KeyPolicy` enumeration of `DictType` (`"E"`, `"S"`, `"U"`). -/
inductive KeyPolicy where
  | EXACT
  | SUBSET
  | UNRESTRICTED
  deriving DecidableEq

/-- Descriptors.  Each constructor corresponds to one registered `Type`
subclass; the fields are that subclass's `params` content:
`union` ↔ `params["allowed_types"]`, `listT` ↔ `params["element_type"]`,
`dictT` ↔ `params["type_map"]`/`params["policy"]`, `const` ↔
`params["val"]` (`is_set` is implied by the value's class), `object` ↔
`params["class_name"]`.  Leaf kinds carry empty params. -/
inductive WBType where
  | never
  | any
  | unknown
  | pynone
  | text
  | number
  | boolean
  | union (allowed_types : List WBType)
  | listT (element_type : WBType)
  | dictT (type_map : List (String × WBType)) (policy : KeyPolicy)
  | const (val : PVal)
  | object (class_name : String)

/-- The singleton `NeverType`. -/
def NeverType : WBType := .never
/-- The singleton `AnyType`. -/
def AnyType : WBType := .any
/-- The singleton `UnknownType`. -/
def UnknownType : WBType := .unknown
/-- The singleton `NoneType`. -/
def NoneType : WBType := .pynone
/-- The singleton `TextType`. -/
def TextType : WBType := .text
/-- The singleton `NumberType`. -/
def NumberType : WBType := .number
/-- The singleton `BooleanType`. -/
def BooleanType : WBType := .boolean

/- ## Size measures (for well-founded recursion) -/

mutual
def psize : PVal → Nat
  | .vnone => 0
  | .vbool _ => 1
  | .vint _ => 1
  | .vstr _ => 1
  | .vlist xs => 1 + psizeL xs
  | .vtuple xs => 1 + psizeL xs
  | .vset xs => 1 + psizeL xs
  | .vfrozenset xs => 1 + psizeL xs
  | .vdict m => 1 + psizeD m
  | .vobj _ => 1
def psizeL : List PVal → Nat
  | [] => 1
  | x :: r => 2 + psize x + psizeL r
def psizeD : List (String × PVal) → Nat
  | [] => 1
  | (_, v) :: r => 2 + psize v + psizeD r
end

mutual
def wsize : WBType → Nat
  | .union ms => 1 + wsizeL ms
  | .listT e => 1 + wsize e
  | .dictT tm _ => 1 + wsizeD tm
  | _ => 1
def wsizeL : List WBType → Nat
  | [] => 1
  | t :: r => 2 + wsize t + wsizeL r
def wsizeD : List (String × WBType) → Nat
  | [] => 1
  | (_, t) :: r => 2 + wsize t + wsizeD r
end

theorem psizeL_pos : ∀ l, 1 ≤ psizeL l := by
  intro l; cases l <;> simp [psizeL] <;> omega

theorem psizeD_pos : ∀ l, 1 ≤ psizeD l := by
  intro l; cases l with
  | nil => simp [psizeD]
  | cons kv r => obtain ⟨k, v⟩ := kv; simp [psizeD]; omega

theorem wsize_pos : ∀ t, 1 ≤ wsize t := by
  intro t; cases t <;> simp [wsize]

theorem wsizeL_pos : ∀ l, 1 ≤ wsizeL l := by
  intro l; cases l <;> simp [wsizeL] <;> omega

theorem wsizeD_pos : ∀ l, 1 ≤ wsizeD l := by
  intro l; cases l with
  | nil => simp [wsizeD]
  | cons kv r => obtain ⟨k, t⟩ := kv; simp [wsizeD]; omega

theorem lookup_psize_lt {m : List (String × PVal)} {k : String} {v : PVal}
    (h : m.lookup k = some v) : psize v < psizeD m := by
  induction m with
  | nil => simp [List.lookup] at h
  | cons kv r ih =>
    obtain ⟨k', v'⟩ := kv
    simp only [List.lookup] at h
    by_cases hk : k = k'
    · have : (k == k') = true := by simp [hk]
      rw [this] at h
      simp only [Option.some.injEq] at h
      subst h
      have := psizeD_pos r
      simp [psizeD]; omega
    · have : (k == k') = false := by simp [hk]
      rw [this] at h
      have := ih h
      simp [psizeD]; omega

/- ## Decidable equality (structural, kernel-reducible) -/

mutual
def pvalDecEq : (a b : PVal) → Decidable (a = b)
  | .vnone, .vnone => isTrue rfl
  | .vbool x, .vbool y =>
      if h : x = y then isTrue (by rw [h]) else isFalse (by simp [h])
  | .vint x, .vint y =>
      if h : x = y then isTrue (by rw [h]) else isFalse (by simp [h])
  | .vstr x, .vstr y =>
      if h : x = y then isTrue (by rw [h]) else isFalse (by simp [h])
  | .vlist x, .vlist y =>
      match pvalDecEqL x y with
      | isTrue h => isTrue (by rw [h])
      | isFalse h => isFalse (by simp [h])
  | .vtuple x, .vtuple y =>
      match pvalDecEqL x y with
      | isTrue h => isTrue (by rw [h])
      | isFalse h => isFalse (by simp [h])
  | .vset x, .vset y =>
      match pvalDecEqL x y with
      | isTrue h => isTrue (by rw [h])
      | isFalse h => isFalse (by simp [h])
  | .vfrozenset x, .vfrozenset y =>
      match pvalDecEqL x y with
      | isTrue h => isTrue (by rw [h])
      | isFalse h => isFalse (by simp [h])
  | .vdict x, .vdict y =>
      match pvalDecEqD x y with
      | isTrue h => isTrue (by rw [h])
      | isFalse h => isFalse (by simp [h])
  | .vobj x, .vobj y =>
      if h : x = y then isTrue (by rw [h]) else isFalse (by simp [h])
  | .vnone, .vbool _ => isFalse (by simp)
  | .vnone, .vint _ => isFalse (by simp)
  | .vnone, .vstr _ => isFalse (by simp)
  | .vnone, .vlist _ => isFalse (by simp)
  | .vnone, .vtuple _ => isFalse (by simp)
  | .vnone, .vset _ => isFalse (by simp)
  | .vnone, .vfrozenset _ => isFalse (by simp)
  | .vnone, .vdict _ => isFalse (by simp)
  | .vnone, .vobj _ => isFalse (by simp)
  | .vbool _, .vnone => isFalse (by simp)
  | .vbool _, .vint _ => isFalse (by simp)
  | .vbool _, .vstr _ => isFalse (by simp)
  | .vbool _, .vlist _ => isFalse (by simp)
  | .vbool _, .vtuple _ => isFalse (by simp)
  | .vbool _, .vset _ => isFalse (by simp)
  | .vbool _, .vfrozenset _ => isFalse (by simp)
  | .vbool _, .vdict _ => isFalse (by simp)
  | .vbool _, .vobj _ => isFalse (by simp)
  | .vint _, .vnone => isFalse (by simp)
  | .vint _, .vbool _ => isFalse (by simp)
  | .vint _, .vstr _ => isFalse (by simp)
  | .vint _, .vlist _ => isFalse (by simp)
  | .vint _, .vtuple _ => isFalse (by simp)
  | .vint _, .vset _ => isFalse (by simp)
  | .vint _, .vfrozenset _ => isFalse (by simp)
  | .vint _, .vdict _ => isFalse (by simp)
  | .vint _, .vobj _ => isFalse (by simp)
  | .vstr _, .vnone => isFalse (by simp)
  | .vstr _, .vbool _ => isFalse (by simp)
  | .vstr _, .vint _ => isFalse (by simp)
  | .vstr _, .vlist _ => isFalse (by simp)
  | .vstr _, .vtuple _ => isFalse (by simp)
  | .vstr _, .vset _ => isFalse (by simp)
  | .vstr _, .vfrozenset _ => isFalse (by simp)
  | .vstr _, .vdict _ => isFalse (by simp)
  | .vstr _, .vobj _ => isFalse (by simp)
  | .vlist _, .vnone => isFalse (by simp)
  | .vlist _, .vbool _ => isFalse (by simp)
  | .vlist _, .vint _ => isFalse (by simp)
  | .vlist _, .vstr _ => isFalse (by simp)
  | .vlist _, .vtuple _ => isFalse (by simp)
  | .vlist _, .vset _ => isFalse (by simp)
  | .vlist _, .vfrozenset _ => isFalse (by simp)
  | .vlist _, .vdict _ => isFalse (by simp)
  | .vlist _, .vobj _ => isFalse (by simp)
  | .vtuple _, .vnone => isFalse (by simp)
  | .vtuple _, .vbool _ => isFalse (by simp)
  | .vtuple _, .vint _ => isFalse (by simp)
  | .vtuple _, .vstr _ => isFalse (by simp)
  | .vtuple _, .vlist _ => isFalse (by simp)
  | .vtuple _, .vset _ => isFalse (by simp)
  | .vtuple _, .vfrozenset _ => isFalse (by simp)
  | .vtuple _, .vdict _ => isFalse (by simp)
  | .vtuple _, .vobj _ => isFalse (by simp)
  | .vset _, .vnone => isFalse (by simp)
  | .vset _, .vbool _ => isFalse (by simp)
  | .vset _, .vint _ => isFalse (by simp)
  | .vset _, .vstr _ => isFalse (by simp)
  | .vset _, .vlist _ => isFalse (by simp)
  | .vset _, .vtuple _ => isFalse (by simp)
  | .vset _, .vfrozenset _ => isFalse (by simp)
  | .vset _, .vdict _ => isFalse (by simp)
  | .vset _, .vobj _ => isFalse (by simp)
  | .vfrozenset _, .vnone => isFalse (by simp)
  | .vfrozenset _, .vbool _ => isFalse (by simp)
  | .vfrozenset _, .vint _ => isFalse (by simp)
  | .vfrozenset _, .vstr _ => isFalse (by simp)
  | .vfrozenset _, .vlist _ => isFalse (by simp)
  | .vfrozenset _, .vtuple _ => isFalse (by simp)
  | .vfrozenset _, .vset _ => isFalse (by simp)
  | .vfrozenset _, .vdict _ => isFalse (by simp)
  | .vfrozenset _, .vobj _ => isFalse (by simp)
  | .vdict _, .vnone => isFalse (by simp)
  | .vdict _, .vbool _ => isFalse (by simp)
  | .vdict _, .vint _ => isFalse (by simp)
  | .vdict _, .vstr _ => isFalse (by simp)
  | .vdict _, .vlist _ => isFalse (by simp)
  | .vdict _, .vtuple _ => isFalse (by simp)
  | .vdict _, .vset _ => isFalse (by simp)
  | .vdict _, .vfrozenset _ => isFalse (by simp)
  | .vdict _, .vobj _ => isFalse (by simp)
  | .vobj _, .vnone => isFalse (by simp)
  | .vobj _, .vbool _ => isFalse (by simp)
  | .vobj _, .vint _ => isFalse (by simp)
  | .vobj _, .vstr _ => isFalse (by simp)
  | .vobj _, .vlist _ => isFalse (by simp)
  | .vobj _, .vtuple _ => isFalse (by simp)
  | .vobj _, .vset _ => isFalse (by simp)
  | .vobj _, .vfrozenset _ => isFalse (by simp)
  | .vobj _, .vdict _ => isFalse (by simp)
def pvalDecEqL : (a b : List PVal) → Decidable (a = b)
  | [], [] => isTrue rfl
  | [], _ :: _ => isFalse (by simp)
  | _ :: _, [] => isFalse (by simp)
  | x :: xs, y :: ys =>
      match pvalDecEq x y, pvalDecEqL xs ys with
      | isTrue h1, isTrue h2 => isTrue (by rw [h1, h2])
      | isFalse h1, _ => isFalse (by simp [h1])
      | _, isFalse h2 => isFalse (by simp [h2])
def pvalDecEqD : (a b : List (String × PVal)) → Decidable (a = b)
  | [], [] => isTrue rfl
  | [], _ :: _ => isFalse (by simp)
  | _ :: _, [] => isFalse (by simp)
  | (k1, v1) :: xs, (k2, v2) :: ys =>
      match String.decEq k1 k2, pvalDecEq v1 v2, pvalDecEqD xs ys with
      | isTrue h0, isTrue h1, isTrue h2 => isTrue (by rw [h0, h1, h2])
      | isFalse h0, _, _ => isFalse (by simp [h0])
      | _, isFalse h1, _ => isFalse (by simp [h1])
      | _, _, isFalse h2 => isFalse (by simp [h2])
end

instance : DecidableEq PVal := pvalDecEq

/- ## Python `==` on runtime/JSON values

`Type.__eq__` compares `to_json()` dictionaries with Python `==`; this is
that relation on embedded values: numeric cross-kind equality
(`True == 1`), order-insensitive dictionary and set comparison,
order-sensitive list/tuple comparison.  A generic object compares by its
class name (the model has no object identity). -/

/-- Numeric view: Python `bool` is an `int` subclass for `==`. -/
def numView : PVal → Option Int
  | .vbool b => some (if b then 1 else 0)
  | .vint n => some n
  | _ => none

mutual
def pyEq : PVal → PVal → Bool
  | .vnone, .vnone => true
  | .vbool x, .vbool y => (if x then (1 : Int) else 0) == (if y then (1 : Int) else 0)
  | .vbool x, .vint m => (if x then (1 : Int) else 0) == m
  | .vint n, .vbool y => n == (if y then (1 : Int) else 0)
  | .vint n, .vint m => n == m
  | .vstr s, .vstr t => s == t
  | .vlist xs, .vlist ys => pyEqL xs ys
  | .vtuple xs, .vtuple ys => pyEqL xs ys
  | .vset xs, .vset ys => pySetSub xs ys && pySetSup xs ys
  | .vset xs, .vfrozenset ys => pySetSub xs ys && pySetSup xs ys
  | .vfrozenset xs, .vset ys => pySetSub xs ys && pySetSup xs ys
  | .vfrozenset xs, .vfrozenset ys => pySetSub xs ys && pySetSup xs ys
  | .vdict m1, .vdict m2 => pyDictSub m1 m2 && pyKeysSub m2 m1
  | .vobj c1, .vobj c2 => c1 == c2
  | _, _ => false
termination_by a b => psize a + psize b
decreasing_by
  all_goals (simp [psize]; try omega)

/-- Pointwise comparison of two sequences. -/
def pyEqL : List PVal → List PVal → Bool
  | [], [] => true
  | x :: xs, y :: ys => pyEq x y && pyEqL xs ys
  | _, _ => false
termination_by a b => psizeL a + psizeL b
decreasing_by
  all_goals (simp [psize, psizeL]; try omega)

/-- Every element of the first set has an equal element in the second. -/
def pySetSub : List PVal → List PVal → Bool
  | [], _ => true
  | x :: xs, ys => pyMem x ys && pySetSub xs ys
termination_by a b => psizeL a + psizeL b
decreasing_by
  all_goals (simp [psize, psizeL]; try omega)

/-- Every element of the second set has an equal element in the first. -/
def pySetSup : List PVal → List PVal → Bool
  | _, [] => true
  | xs, y :: ys => pyMem y xs && pySetSup xs ys
termination_by a b => psizeL a + psizeL b
decreasing_by
  all_goals (simp [psize, psizeL]; try omega)

/-- Membership by Python equality. -/
def pyMem : PVal → List PVal → Bool
  | _, [] => false
  | x, y :: ys => pyEq x y || pyMem x ys
termination_by a b => psize a + psizeL b
decreasing_by
  all_goals (simp [psize, psizeL]; try omega)

/-- Each entry of the first dict maps to an equal value in the second. -/
def pyDictSub : List (String × PVal) → List (String × PVal) → Bool
  | [], _ => true
  | (k, v) :: r, m2 => pyLookupEq k v m2 && pyDictSub r m2
termination_by a b => psizeD a + psizeD b
decreasing_by
  all_goals (simp [psize, psizeD]; try omega)

/-- Look up a key and compare the value. -/
def pyLookupEq : String → PVal → List (String × PVal) → Bool
  | _, _, [] => false
  | k, v, (k2, v2) :: r2 => if k == k2 then pyEq v v2 else pyLookupEq k v r2
termination_by k v m => psize v + psizeD m
decreasing_by
  all_goals (simp [psize, psizeD]; try omega)

/-- Every key of the first dict occurs in the second. -/
def pyKeysSub : List (String × PVal) → List (String × PVal) → Bool
  | [], _ => true
  | (k, _) :: r, m2 => (m2.lookup k).isSome && pyKeysSub r m2
termination_by a b => psizeD a + psizeD b
decreasing_by
  all_goals (simp [psize, psizeD]; try omega)
end

/- ## Serialization: `Type.to_json`

Every descriptor serializes to `{"wb_type": name, "params": encoded}`,
the `params` entry deleted when empty (exactly the leaf kinds here).
`_params_obj_to_json_obj` walks dicts and lists and serializes nested
descriptors; on `params` trees of the reachable shapes this is the
(structural) encoding below.  A `Const` whose value is a Python `set`
additionally carries `"is_set": true`, and the set value itself passes
through unchanged (a set is neither a `dict`, a `list`, nor a `Type`). -/

/-- `isinstance(py_obj, set)` (Python `set` only, not `frozenset`). -/
def isinstance_set : PVal → Bool
  | .vset _ => true
  | _ => false

/-- `KeyPolicy` string constants. -/
def policy_str : KeyPolicy → String
  | .EXACT => "E"
  | .SUBSET => "S"
  | .UNRESTRICTED => "U"

mutual
def to_json : WBType → PVal
  | .never => .vdict [("wb_type", .vstr "never")]
  | .any => .vdict [("wb_type", .vstr "any")]
  | .unknown => .vdict [("wb_type", .vstr "unknown")]
  | .pynone => .vdict [("wb_type", .vstr "none")]
  | .text => .vdict [("wb_type", .vstr "text")]
  | .number => .vdict [("wb_type", .vstr "number")]
  | .boolean => .vdict [("wb_type", .vstr "boolean")]
  | .union ms =>
      .vdict [("wb_type", .vstr "union"),
              ("params", .vdict [("allowed_types", .vlist (to_jsonL ms))])]
  | .listT e =>
      .vdict [("wb_type", .vstr "list"),
              ("params", .vdict [("element_type", to_json e)])]
  | .dictT tm p =>
      .vdict [("wb_type", .vstr "dictionary"),
              ("params", .vdict [("type_map", .vdict (to_jsonD tm)),
                                 ("policy", .vstr (policy_str p))])]
  | .const c =>
      .vdict [("wb_type", .vstr "const"),
              ("params", .vdict (("val", c) ::
                (if isinstance_set c then [("is_set", .vbool true)] else [])))]
  | .object c =>
      .vdict [("wb_type", .vstr "object"),
              ("params", .vdict [("class_name", .vstr c)])]
def to_jsonL : List WBType → List PVal
  | [] => []
  | t :: r => to_json t :: to_jsonL r
def to_jsonD : List (String × WBType) → List (String × PVal)
  | [] => []
  | (k, t) :: r => (k, to_json t) :: to_jsonD r
end

/-- `Type.__eq__`: identity or equality of the canonical serializations
(`self.to_json() == other.to_json()`; identity implies it). -/
def typeEq (a b : WBType) : Bool := pyEq (to_json a) (to_json b)

/- ## `str(type)` — the union sort key

`UnionType.__init__` and `UnionType.assign` canonicalize the member list
with `allowed_types.sort(key=str)`; `str` calls
`Type.__repr__ = "<WBType:{} | {}>".format(self.name, self.params)`,
which in turn prints the params dict with Python `repr`.  The model
computes that string as a `List Char`. -/

/-- Decimal digits of a natural number (fuel-structured so the kernel
can reduce it; `natDigits` supplies sufficient fuel). -/
def natDigitsAux : Nat → Nat → List Char
  | 0, _ => []
  | fuel + 1, n =>
      if n < 10 then [Nat.digitChar n]
      else natDigitsAux fuel (n / 10) ++ [Nat.digitChar (n % 10)]

def natDigits (n : Nat) : List Char := natDigitsAux (n + 1) n

/-- Python `repr` of an integer. -/
def intRepr (n : Int) : List Char :=
  if n < 0 then '-' :: natDigits n.natAbs else natDigits n.toNat

/-- Backslash-escaping of quote and backslash characters.  (CPython's
`repr` instead switches the quote character when the text contains a
single quote; the model always escapes, which only changes the relative
order of strings containing quotes or backslashes.) -/
def esc : List Char → List Char
  | [] => []
  | c :: r =>
      if c = '\\' then '\\' :: '\\' :: esc r
      else if c = '\'' then '\\' :: '\'' :: esc r
      else c :: esc r

/-- Python `repr` of a string: quoted and escaped. -/
def strRepr (s : String) : List Char := '\'' :: (esc s.data ++ ['\''])

mutual
/-- Python `repr` of an embedded runtime value.  A generic object prints
as its quoted class name (CPython prints a memory address there; the
model substitutes a deterministic, injective form). -/
def pvalRepr : PVal → List Char
  | .vnone => "None".data
  | .vbool b => if b then "True".data else "False".data
  | .vint n => intRepr n
  | .vstr s => strRepr s
  | .vlist xs => '[' :: (pvalReprL xs ++ [']'])
  | .vtuple [] => "()".data
  | .vtuple [x] => '(' :: (pvalRepr x ++ ",)".data)
  | .vtuple xs => '(' :: (pvalReprL xs ++ [')'])
  | .vset [] => "set()".data
  | .vset xs => '{' :: (pvalReprL xs ++ ['}'])
  | .vfrozenset [] => "frozenset()".data
  | .vfrozenset xs => "frozenset(\x7b".data ++ (pvalReprL xs ++ "\x7d)".data)
  | .vdict m => '{' :: (pvalReprD m ++ ['}'])
  | .vobj c => '<' :: (strRepr c ++ " object>".data)
def pvalReprL : List PVal → List Char
  | [] => []
  | [x] => pvalRepr x
  | x :: r => pvalRepr x ++ (", ".data ++ pvalReprL r)
def pvalReprD : List (String × PVal) → List Char
  | [] => []
  | [(k, v)] => strRepr k ++ (": ".data ++ pvalRepr v)
  | (k, v) :: r => strRepr k ++ (": ".data ++ (pvalRepr v ++ (", ".data ++ pvalReprD r)))
end

mutual
/-- `str(t)`: `"<WBType:{} | {}>".format(t.name, t.params)`. -/
def wbRepr : WBType → List Char
  | .never => "<WBType:never | \x7b\x7d>".data
  | .any => "<WBType:any | \x7b\x7d>".data
  | .unknown => "<WBType:unknown | \x7b\x7d>".data
  | .pynone => "<WBType:none | \x7b\x7d>".data
  | .text => "<WBType:text | \x7b\x7d>".data
  | .number => "<WBType:number | \x7b\x7d>".data
  | .boolean => "<WBType:boolean | \x7b\x7d>".data
  | .union ms =>
      "<WBType:union | \x7b'allowed_types': [".data ++ (wbReprL ms ++ "]\x7d>".data)
  | .listT e =>
      "<WBType:list | \x7b'element_type': ".data ++ (wbRepr e ++ "\x7d>".data)
  | .dictT tm p =>
      "<WBType:dictionary | \x7b'type_map': \x7b".data ++
        (wbReprD tm ++ ("\x7d, 'policy': '".data ++ ((policy_str p).data ++ "'\x7d>".data)))
  | .const c =>
      "<WBType:const | \x7b'val': ".data ++
        (pvalRepr c ++
          ((if isinstance_set c then ", 'is_set': True".data else []) ++ "\x7d>".data))
  | .object c =>
      "<WBType:object | \x7b'class_name': ".data ++ (strRepr c ++ "\x7d>".data)
def wbReprL : List WBType → List Char
  | [] => []
  | [t] => wbRepr t
  | t :: r => wbRepr t ++ (", ".data ++ wbReprL r)
def wbReprD : List (String × WBType) → List Char
  | [] => []
  | [(k, t)] => strRepr k ++ (": ".data ++ wbRepr t)
  | (k, t) :: r => strRepr k ++ (": ".data ++ (wbRepr t ++ (", ".data ++ wbReprD r)))
end

/-- Lexicographic (code-point) string comparison, Python `<=` on `str`. -/
def lexLe : List Char → List Char → Bool
  | [], _ => true
  | _ :: _, [] => false
  | a :: as, b :: bs => if a = b then lexLe as bs else decide (a.toNat < b.toNat)

/-- The sort order used by `allowed_types.sort(key=str)`. -/
def uLE (a b : WBType) : Prop := lexLe (wbRepr a) (wbRepr b) = true

instance : DecidableRel uLE := fun a b => by unfold uLE; infer_instance

theorem lexLe_total (a b : List Char) : lexLe a b = true ∨ lexLe b a = true := by
  induction a generalizing b with
  | nil => left; simp [lexLe]
  | cons x xs ih =>
    cases b with
    | nil => right; simp [lexLe]
    | cons y ys =>
      by_cases hxy : x = y
      · subst hxy
        rcases ih ys with h | h
        · left; simp [lexLe, h]
        · right; simp [lexLe, h]
      · rcases Nat.lt_trichotomy x.toNat y.toNat with h | h | h
        · left; simp [lexLe, hxy, h]
        · exact absurd (Char.eq_of_val_eq (UInt32.eq_of_toBitVec_eq
            (BitVec.eq_of_toNat_eq h))) hxy
        · right
          have hyx : ¬ y = x := fun hc => hxy hc.symm
          simp [lexLe, hyx, h]

theorem lexLe_trans {a b c : List Char} (h1 : lexLe a b = true)
    (h2 : lexLe b c = true) : lexLe a c = true := by
  induction a generalizing b c with
  | nil => simp [lexLe]
  | cons x xs ih =>
    cases b with
    | nil => simp [lexLe] at h1
    | cons y ys =>
      cases c with
      | nil => simp [lexLe] at h2
      | cons z zs =>
        by_cases hxy : x = y <;> by_cases hyz : y = z
        · subst hxy; subst hyz
          simp only [lexLe, if_pos rfl] at h1 h2 ⊢
          exact ih h1 h2
        · subst hxy
          simp only [lexLe, if_pos rfl] at h1
          simp only [lexLe, if_neg hyz] at h2
          simp [lexLe, hyz, h2]
        · subst hyz
          simp only [lexLe, if_neg hxy] at h1
          simp [lexLe, hxy, h1]
        · simp only [lexLe, if_neg hxy] at h1
          simp only [lexLe, if_neg hyz] at h2
          simp only [decide_eq_true_eq] at h1 h2
          have hxz : x.toNat < z.toNat := Nat.lt_trans h1 h2
          have : ¬ x = z := fun hc => by rw [hc] at h1; omega
          simp [lexLe, this, hxz]

theorem lexLe_antisymm {a b : List Char} (h1 : lexLe a b = true)
    (h2 : lexLe b a = true) : a = b := by
  induction a generalizing b with
  | nil => cases b with
    | nil => rfl
    | cons y ys => simp [lexLe] at h2
  | cons x xs ih =>
    cases b with
    | nil => simp [lexLe] at h1
    | cons y ys =>
      by_cases hxy : x = y
      · subst hxy
        simp only [lexLe, if_pos rfl] at h1 h2
        rw [ih h1 h2]
      · have hyx : ¬ y = x := fun hc => hxy hc.symm
        simp only [lexLe, if_neg hxy, decide_eq_true_eq] at h1
        simp only [lexLe, if_neg hyx, decide_eq_true_eq] at h2
        omega

instance : IsTotal WBType uLE := ⟨fun a b => lexLe_total (wbRepr a) (wbRepr b)⟩
instance : IsTrans WBType uLE := ⟨fun _ _ _ => lexLe_trans⟩

/-- `list.sort(key=str)`: a stable sort by the `str` key (modelled by
insertion sort; stability is immaterial once the key is injective, see
`wbRepr_inj` below). -/
def pysort (l : List WBType) : List WBType := List.insertionSort uLE l

/-- `UnionType._flatten_types`. -/
def flatten_types : List WBType → List WBType
  | [] => []
  | .union ms :: rest => flatten_types ms ++ flatten_types rest
  | t :: rest => t :: flatten_types rest
termination_by l => wsizeL l
decreasing_by
  all_goals (simp [wsize, wsizeL]; try omega)

/-- The public `UnionType` constructor on a member list: flatten, then
sort into canonical order. -/
def UnionType_ofList (l : List WBType) : WBType := .union (pysort (flatten_types l))

/-- `OptionalType(wb_type) = UnionType([wb_type, NoneType])`. -/
def OptionalType (t : WBType) : WBType := UnionType_ofList [t, NoneType]

/- ## A reference decoder for `str(type)`

`allowed_types.sort(key=str)` sorts by the printed form, so the
canonical member order of a union is determined by `wbRepr` alone.  To
show that two descriptors with the same printed form are equal (needed
for the antisymmetry of the sort order), the model includes a decoder
that recovers a descriptor from its printed form.  The decoders are
fuel-indexed so that they are structurally recursive. -/

/-- Strip an expected prefix, returning the remainder. -/
def dropPrefix : List Char → List Char → Option (List Char)
  | [], s => some s
  | _ :: _, [] => none
  | p :: ps, c :: cs => if c = p then dropPrefix ps cs else none

/-- Does the text not start with a decimal digit? -/
def digitFree : List Char → Bool
  | [] => true
  | c :: _ => !c.isDigit

/-- Numeric value of a digit string. -/
def parseDigitsVal (ds : List Char) : Nat :=
  ds.foldl (fun a c => a * 10 + (c.toNat - 48)) 0

/-- Read an escaped string body up to the closing quote. -/
def parseStrAux : List Char → Option (List Char × List Char)
  | [] => none
  | c :: r =>
    if c = '\\' then
      match r with
      | [] => none
      | c2 :: r2 =>
          match parseStrAux r2 with
          | some (cs, r3) => some (c2 :: cs, r3)
          | none => none
    else if c = '\'' then some ([], r)
    else
      match parseStrAux r with
      | some (cs, r2) => some (c :: cs, r2)
      | none => none

/-- Read a quoted, escaped string literal. -/
def parseStr : List Char → Option (String × List Char)
  | [] => none
  | c :: r =>
    if c = '\'' then
      match parseStrAux r with
      | some (cs, r2) => some (String.mk cs, r2)
      | none => none
    else none

mutual
/-- Read the `repr` of one embedded value. -/
def parsePV : Nat → List Char → Option (PVal × List Char)
  | 0, _ => none
  | fuel + 1, s =>
      match dropPrefix "None".data s with
      | some r => some (.vnone, r)
      | none =>
      match dropPrefix "True".data s with
      | some r => some (.vbool true, r)
      | none =>
      match dropPrefix "False".data s with
      | some r => some (.vbool false, r)
      | none =>
      match dropPrefix "set()".data s with
      | some r => some (.vset [], r)
      | none =>
      match dropPrefix "frozenset(".data s with
      | some r => parseFrozen fuel r
      | none => parsePVCore fuel s
/-- Dispatch on the first character of a value literal. -/
def parsePVCore : Nat → List Char → Option (PVal × List Char)
  | 0, _ => none
  | _ + 1, [] => none
  | fuel + 1, c :: r =>
        if c = '\'' then
          match parseStrAux r with
          | some (cs, r2) => some (.vstr (String.mk cs), r2)
          | none => none
        else if c = '[' then
          match parseElems ']' fuel r with
          | some (xs, r2) => some (.vlist xs, r2)
          | none => none
        else if c = '(' then parseTuple fuel r
        else if c = '{' then parseBrace fuel r
        else if c = '<' then
          match parseStr r with
          | some (cn, r2) =>
              (match dropPrefix " object>".data r2 with
               | some r3 => some (.vobj cn, r3)
               | none => none)
          | none => none
        else if c = '-' then
          match r.takeWhile Char.isDigit with
          | [] => none
          | ds => some (.vint (-(parseDigitsVal ds : Int)), r.dropWhile Char.isDigit)
        else if c.isDigit then
          some (.vint (parseDigitsVal ((c :: r).takeWhile Char.isDigit)),
            (c :: r).dropWhile Char.isDigit)
        else none
/-- Read the tail of a `frozenset` literal (after `frozenset(`). -/
def parseFrozen : Nat → List Char → Option (PVal × List Char)
  | 0, _ => none
  | _ + 1, [] => none
  | fuel + 1, c :: r =>
        if c = ')' then some (.vfrozenset [], r)
        else if c = '{' then
          match parseElems '}' fuel r with
          | some (xs, ')' :: r2) => some (.vfrozenset xs, r2)
          | _ => none
        else none
/-- Read the tail of a tuple literal (after the opening parenthesis). -/
def parseTuple : Nat → List Char → Option (PVal × List Char)
  | 0, _ => none
  | _ + 1, [] => none
  | fuel + 1, c :: r =>
        if c = ')' then some (.vtuple [], r)
        else
          match parsePV fuel (c :: r) with
          | some (x, ',' :: ')' :: r2) => some (.vtuple [x], r2)
          | some (x, ',' :: ' ' :: r2) =>
              (match parseElems ')' fuel r2 with
               | some (xs, r3) => some (.vtuple (x :: xs), r3)
               | none => none)
          | _ => none
/-- Read the tail of a brace literal — a dict or a non-empty set
(after the opening brace). -/
def parseBrace : Nat → List Char → Option (PVal × List Char)
  | 0, _ => none
  | _ + 1, [] => none
  | fuel + 1, c :: r =>
        if c = '}' then some (.vdict [], r)
        else if c = '\'' then
          match parseStrAux r with
          | some (cs, ':' :: ' ' :: r2) =>
              (match parsePV fuel r2 with
               | some (v, ',' :: ' ' :: r3) =>
                   (match parseEntries fuel r3 with
                    | some (m, r4) => some (.vdict ((String.mk cs, v) :: m), r4)
                    | none => none)
               | some (v, '}' :: r3) => some (.vdict [(String.mk cs, v)], r3)
               | _ => none)
          | some (cs, ',' :: ' ' :: r2) =>
              (match parseElems '}' fuel r2 with
               | some (xs, r3) => some (.vset (.vstr (String.mk cs) :: xs), r3)
               | none => none)
          | some (cs, '}' :: r2) => some (.vset [.vstr (String.mk cs)], r2)
          | _ => none
        else
          match parsePV fuel (c :: r) with
          | some (x, ',' :: ' ' :: r2) =>
              (match parseElems '}' fuel r2 with
               | some (xs, r3) => some (.vset (x :: xs), r3)
               | none => none)
          | some (x, '}' :: r2) => some (.vset [x], r2)
          | _ => none
/-- Read `", "`-separated elements up to (and including) a closing
character. -/
def parseElems : Char → Nat → List Char → Option (List PVal × List Char)
  | _, 0, _ => none
  | _, _ + 1, [] => none
  | term, fuel + 1, c :: r =>
        if c = term then some ([], r)
        else
          match parsePV fuel (c :: r) with
          | some (x, ',' :: ' ' :: r2) =>
              (match parseElems term fuel r2 with
               | some (xs, r3) => some (x :: xs, r3)
               | none => none)
          | some (x, c2 :: r2) => if c2 = term then some ([x], r2) else none
          | _ => none
/-- Read `", "`-separated `key: value` entries up to (and including)
the closing brace. -/
def parseEntries : Nat → List Char → Option (List (String × PVal) × List Char)
  | 0, _ => none
  | _ + 1, [] => none
  | fuel + 1, c :: r =>
        if c = '}' then some ([], r)
        else if c = '\'' then
          match parseStrAux r with
          | some (cs, ':' :: ' ' :: r2) =>
              (match parsePV fuel r2 with
               | some (v, ',' :: ' ' :: r3) =>
                   (match parseEntries fuel r3 with
                    | some (m, r4) => some ((String.mk cs, v) :: m, r4)
                    | none => none)
               | some (v, '}' :: r3) => some ([(String.mk cs, v)], r3)
               | _ => none)
          | _ => none
        else none
end

/-- Read the policy suffix of a dictionary descriptor. -/
def parseWPolicy (tm : List (String × WBType)) (r : List Char) :
    Option (WBType × List Char) :=
  match dropPrefix "E'\x7d>".data r with
  | some r2 => some (.dictT tm .EXACT, r2)
  | none =>
  match dropPrefix "S'\x7d>".data r with
  | some r2 => some (.dictT tm .SUBSET, r2)
  | none =>
  match dropPrefix "U'\x7d>".data r with
  | some r2 => some (.dictT tm .UNRESTRICTED, r2)
  | none => none

mutual
/-- Payload size of the `Const` descriptors inside a descriptor: the
fuel needed by the value decoder. -/
def csize : WBType → Nat
  | .union ms => csizeL ms
  | .listT e => csize e
  | .dictT tm _ => csizeD tm
  | .const c => psize c + 1
  | _ => 0
def csizeL : List WBType → Nat
  | [] => 0
  | t :: r => csize t + csizeL r
def csizeD : List (String × WBType) → Nat
  | [] => 0
  | (_, t) :: r => csize t + csizeD r
end

mutual
/-- Read the `str` form of one descriptor. -/
def parseW : Nat → Nat → List Char → Option (WBType × List Char)
  | 0, _, _ => none
  | wfuel + 1, pfuel, s =>
      match dropPrefix "<WBType:".data s with
      | none => none
      | some r =>
      match dropPrefix "never | \x7b\x7d>".data r with
      | some r2 => some (.never, r2)
      | none =>
      match dropPrefix "any | \x7b\x7d>".data r with
      | some r2 => some (.any, r2)
      | none =>
      match dropPrefix "unknown | \x7b\x7d>".data r with
      | some r2 => some (.unknown, r2)
      | none =>
      match dropPrefix "none | \x7b\x7d>".data r with
      | some r2 => some (.pynone, r2)
      | none =>
      match dropPrefix "text | \x7b\x7d>".data r with
      | some r2 => some (.text, r2)
      | none =>
      match dropPrefix "number | \x7b\x7d>".data r with
      | some r2 => some (.number, r2)
      | none =>
      match dropPrefix "boolean | \x7b\x7d>".data r with
      | some r2 => some (.boolean, r2)
      | none =>
      match dropPrefix "union | \x7b'allowed_types': [".data r with
      | some r2 =>
          (match parseWList wfuel pfuel r2 with
           | some (ms, r3) =>
               (match dropPrefix "]\x7d>".data r3 with
                | some r4 => some (.union ms, r4)
                | none => none)
           | none => none)
      | none =>
      match dropPrefix "list | \x7b'element_type': ".data r with
      | some r2 =>
          (match parseW wfuel pfuel r2 with
           | some (e, r3) =>
               (match dropPrefix "\x7d>".data r3 with
                | some r4 => some (.listT e, r4)
                | none => none)
           | none => none)
      | none =>
      match dropPrefix "dictionary | \x7b'type_map': \x7b".data r with
      | some r2 =>
          (match parseWDict wfuel pfuel r2 with
           | some (tm, r3) =>
               (match dropPrefix "\x7d, 'policy': '".data r3 with
                | some r4 => parseWPolicy tm r4
                | none => none)
           | none => none)
      | none =>
      match dropPrefix "const | \x7b'val': ".data r with
      | some r2 =>
          (match parsePV pfuel r2 with
           | some (cv, r3) =>
               (match dropPrefix ", 'is_set': True\x7d>".data r3 with
                | some r4 => some (.const cv, r4)
                | none =>
                   match dropPrefix "\x7d>".data r3 with
                   | some r4 => some (.const cv, r4)
                   | none => none)
           | none => none)
      | none =>
      match dropPrefix "object | \x7b'class_name': ".data r with
      | some r2 =>
          (match parseStr r2 with
           | some (cn, r3) =>
               (match dropPrefix "\x7d>".data r3 with
                | some r4 => some (.object cn, r4)
                | none => none)
           | none => none)
      | none => none
/-- Read `", "`-separated descriptors, stopping before `]`. -/
def parseWList : Nat → Nat → List Char → Option (List WBType × List Char)
  | 0, _, _ => none
  | _ + 1, _, [] => none
  | wfuel + 1, pfuel, c :: r =>
        if c = ']' then some ([], c :: r)
        else
          match parseW wfuel pfuel (c :: r) with
          | some (t, ',' :: ' ' :: r2) =>
              (match parseWList wfuel pfuel r2 with
               | some (ts, r3) => some (t :: ts, r3)
               | none => none)
          | some (t, r2) => some ([t], r2)
          | _ => none
/-- Read `", "`-separated `key: descriptor` entries, stopping before
`\x7d`. -/
def parseWDict : Nat → Nat → List Char → Option (List (String × WBType) × List Char)
  | 0, _, _ => none
  | _ + 1, _, [] => none
  | wfuel + 1, pfuel, c :: r =>
        if c = '}' then some ([], c :: r)
        else if c = '\'' then
          match parseStrAux r with
          | some (cs, ':' :: ' ' :: r2) =>
              (match parseW wfuel pfuel r2 with
               | some (t, ',' :: ' ' :: r3) =>
                   (match parseWDict wfuel pfuel r3 with
                    | some (m, r4) => some ((String.mk cs, t) :: m, r4)
                    | none => none)
               | some (t, r3) => some ([(String.mk cs, t)], r3)
               | _ => none)
          | _ => none
        else none
end


/- ## Soundness of the decoders on printed forms -/

theorem dropPrefix_self (p s : List Char) : dropPrefix p (p ++ s) = some s := by
  induction p with
  | nil => simp [dropPrefix]
  | cons c r ih => simp [dropPrefix, ih]

theorem parseStrAux_esc (d : List Char) :
    ∀ s, parseStrAux (esc d ++ '\'' :: s) = some (d, s) := by
  induction d with
  | nil => intro s; rw [esc, List.nil_append, parseStrAux.eq_def]; simp
  | cons c r ih =>
      intro s
      by_cases h1 : c = '\\'
      · subst h1
        show parseStrAux ('\\' :: '\\' :: (esc r ++ '\'' :: s)) = some ('\\' :: r, s)
        rw [parseStrAux.eq_def]
        simp [ih]
      · by_cases h2 : c = '\''
        · subst h2
          show parseStrAux ('\\' :: '\'' :: (esc r ++ '\'' :: s)) = some ('\'' :: r, s)
          rw [parseStrAux.eq_def]
          simp [ih]
        · rw [esc]
          simp only [if_neg h1, if_neg h2, List.cons_append]
          rw [parseStrAux.eq_def]
          simp [h1, h2, ih]

theorem parseStr_repr (k : String) (s : List Char) :
    parseStr (strRepr k ++ s) = some (k, s) := by
  obtain ⟨d⟩ := k
  have h : strRepr (String.mk d) ++ s = '\'' :: (esc d ++ '\'' :: s) := by
    simp [strRepr]
  rw [h]
  simp [parseStr, parseStrAux_esc]

theorem natDigitsAux_irrel : ∀ f1 f2 n, n < f1 → n < f2 →
    natDigitsAux f1 n = natDigitsAux f2 n := by
  intro f1
  induction f1 with
  | zero => intro f2 n h; omega
  | succ f1 ih =>
      intro f2 n h1 h2
      cases f2 with
      | zero => omega
      | succ f2 =>
          by_cases hn : n < 10
          · simp [natDigitsAux, hn]
          · have hr := ih f2 (n / 10) (by omega) (by omega)
            simp [natDigitsAux, hn, hr]

theorem natDigits_unfold (n : Nat) :
    natDigits n = if n < 10 then [Nat.digitChar n]
      else natDigits (n / 10) ++ [Nat.digitChar (n % 10)] := by
  by_cases h : n < 10
  · rw [if_pos h, natDigits, natDigitsAux.eq_2, if_pos h]
  · have hIr := natDigitsAux_irrel n (n / 10 + 1) (n / 10) (by omega) (by omega)
    rw [if_neg h, natDigits, natDigitsAux.eq_2, if_neg h, hIr]
    rfl

theorem digitChar_isDigit {m : Nat} (h : m < 10) :
    (Nat.digitChar m).isDigit = true := by
  interval_cases m <;> decide

theorem digitChar_val {m : Nat} (h : m < 10) :
    (Nat.digitChar m).toNat - 48 = m := by
  interval_cases m <;> decide

theorem natDigits_digits (n : Nat) : ∀ c ∈ natDigits n, c.isDigit = true := by
  induction n using Nat.strong_induction_on with
  | _ n ih =>
    rw [natDigits_unfold]
    by_cases h : n < 10
    · simp only [h, reduceIte, List.mem_singleton]
      intro c hc; subst hc; exact digitChar_isDigit h
    · simp only [h, reduceIte, Bool.false_eq_true]
      intro c hc
      rcases List.mem_append.mp hc with h1 | h1
      · exact ih (n / 10) (by omega) c h1
      · simp only [List.mem_singleton] at h1; subst h1
        exact digitChar_isDigit (by omega)

theorem natDigits_ne_nil (n : Nat) : natDigits n ≠ [] := by
  rw [natDigits_unfold]
  by_cases h : n < 10 <;> simp [h]

theorem foldl_digits_shift (ds : List Char) : ∀ a : Nat,
    ds.foldl (fun a c => a * 10 + (c.toNat - 48)) a
      = a * 10 ^ ds.length + ds.foldl (fun a c => a * 10 + (c.toNat - 48)) 0 := by
  induction ds with
  | nil => intro a; simp
  | cons c r ih =>
      intro a
      simp only [List.foldl_cons, List.length_cons]
      rw [ih (a * 10 + (c.toNat - 48)), ih (0 * 10 + (c.toNat - 48))]
      rw [pow_succ]
      ring_nf
      omega

theorem parseDigitsVal_natDigits (n : Nat) : parseDigitsVal (natDigits n) = n := by
  induction n using Nat.strong_induction_on with
  | _ n ih =>
    rw [parseDigitsVal, natDigits_unfold]
    by_cases h : n < 10
    · simp only [h, reduceIte, List.foldl_cons, List.foldl_nil]
      have := digitChar_val h
      omega
    · simp only [h, reduceIte, List.foldl_append, List.foldl_cons, List.foldl_nil]
      have h1 : (natDigits (n / 10)).foldl (fun a c => a * 10 + (c.toNat - 48)) 0 = n / 10 :=
        ih (n / 10) (by omega)
      rw [h1]
      have := digitChar_val (show n % 10 < 10 by omega)
      omega

theorem takeWhile_append_all {p : Char → Bool} : ∀ (a b : List Char),
    (∀ c ∈ a, p c = true) → (∀ c r, b = c :: r → p c = false) →
    (a ++ b).takeWhile p = a ∧ (a ++ b).dropWhile p = b := by
  intro a
  induction a with
  | nil =>
      intro b _ hb
      cases b with
      | nil => simp
      | cons c r =>
          simp [List.takeWhile_cons, List.dropWhile_cons, hb c r rfl]
  | cons c a2 ih =>
      intro b ha hb
      have hc : p c = true := ha c (List.mem_cons_self c a2)
      have := ih b (fun c2 hc2 => ha c2 (List.mem_cons_of_mem _ hc2)) hb
      simp [List.takeWhile_cons, List.dropWhile_cons, hc, this.1, this.2]

theorem digit_ne {c : Char} (h : c.isDigit = true) {p : Char}
    (hp : p.isDigit = false) : ¬ c = p := by
  intro he; subst he; rw [h] at hp; cases hp

theorem natDigits_head (n : Nat) :
    ∃ c r, natDigits n = c :: r ∧ c.isDigit = true := by
  cases hd : natDigits n with
  | nil => exact absurd hd (natDigits_ne_nil n)
  | cons c r =>
      exact ⟨c, r, rfl, natDigits_digits n c (by rw [hd]; exact List.mem_cons_self c r)⟩

/-- Soundness of `parsePV` at a given fuel. -/
def PVSound (f : Nat) : Prop := ∀ x s, 2 * psize x < f → digitFree s = true →
  parsePV f (pvalRepr x ++ s) = some (x, s)

/-- Soundness of `parseElems` at a given fuel. -/
def ELSound (f : Nat) : Prop := ∀ term xs s,
  (term = ']' ∨ term = ')' ∨ term = '}') → 2 * psizeL xs < f →
  parseElems term f (pvalReprL xs ++ term :: s) = some (xs, s)

/-- Soundness of `parseEntries` at a given fuel. -/
def ENSound (f : Nat) : Prop := ∀ m s, 2 * psizeD m < f →
  parseEntries f (pvalReprD m ++ '}' :: s) = some (m, s)

theorem pvalRepr_head (x : PVal) : ∃ c r, pvalRepr x = c :: r ∧
    ¬ c = ']' ∧ ¬ c = ')' ∧ ¬ c = '}' ∧ (c = '\'' → ∃ k, x = PVal.vstr k) := by
  cases x with
  | vnone =>
      exact ⟨'N', ['o','n','e'], by simp [pvalRepr], by decide, by decide,
        by decide, fun h => absurd h (by decide)⟩
  | vbool b =>
      cases b with
      | true =>
          exact ⟨'T', ['r','u','e'], by simp [pvalRepr], by decide, by decide,
            by decide, fun h => absurd h (by decide)⟩
      | false =>
          exact ⟨'F', ['a','l','s','e'], by simp [pvalRepr], by decide, by decide,
            by decide, fun h => absurd h (by decide)⟩
  | vint n =>
      by_cases hn : n < 0
      · exact ⟨'-', natDigits n.natAbs, by simp [pvalRepr, intRepr, hn],
          by decide, by decide, by decide, fun h => absurd h (by decide)⟩
      · obtain ⟨c, cr, hnd, hcd⟩ := natDigits_head n.toNat
        exact ⟨c, cr, by simp [pvalRepr, intRepr, hn, hnd],
          digit_ne hcd (by decide), digit_ne hcd (by decide),
          digit_ne hcd (by decide), fun h => absurd h (digit_ne hcd (by decide))⟩
  | vstr k =>
      exact ⟨'\'', esc k.data ++ ['\''], by simp [pvalRepr, strRepr], by decide,
        by decide, by decide, fun _ => ⟨k, rfl⟩⟩
  | vlist xs =>
      exact ⟨'[', pvalReprL xs ++ [']'], by simp [pvalRepr], by decide,
        by decide, by decide, fun h => absurd h (by decide)⟩
  | vtuple xs =>
      match xs with
      | [] =>
          exact ⟨'(', [')'], by simp [pvalRepr], by decide, by decide,
            by decide, fun h => absurd h (by decide)⟩
      | [x] =>
          exact ⟨'(', pvalRepr x ++ [',', ')'], by simp [pvalRepr], by decide,
            by decide, by decide, fun h => absurd h (by decide)⟩
      | x :: y :: r =>
          exact ⟨'(', pvalReprL (x :: y :: r) ++ [')'], by simp [pvalRepr],
            by decide, by decide, by decide, fun h => absurd h (by decide)⟩
  | vset xs =>
      match xs with
      | [] =>
          exact ⟨'s', ['e','t','(',')'], by simp [pvalRepr], by decide,
            by decide, by decide, fun h => absurd h (by decide)⟩
      | x :: r =>
          exact ⟨'{', pvalReprL (x :: r) ++ ['}'], by simp [pvalRepr], by decide,
            by decide, by decide, fun h => absurd h (by decide)⟩
  | vfrozenset xs =>
      match xs with
      | [] =>
          exact ⟨'f', "rozenset()".data, by simp [pvalRepr], by decide,
            by decide, by decide, fun h => absurd h (by decide)⟩
      | x :: r =>
          exact ⟨'f', "rozenset(\x7b".data ++ (pvalReprL (x :: r) ++ "\x7d)".data),
            by simp [pvalRepr], by decide, by decide, by decide,
            fun h => absurd h (by decide)⟩
  | vdict m =>
      exact ⟨'{', pvalReprD m ++ ['}'], by simp [pvalRepr], by decide,
        by decide, by decide, fun h => absurd h (by decide)⟩
  | vobj c =>
      exact ⟨'<', strRepr c ++ " object>".data, by simp [pvalRepr], by decide,
        by decide, by decide, fun h => absurd h (by decide)⟩

theorem parseElems_step {g : Nat} (hPV : PVSound g) (hEL : ELSound g) :
    ELSound (g + 1) := by
  intro term xs s hterm hsz
  have hdf : digitFree (term :: s) = true := by
    rcases hterm with rfl | rfl | rfl <;> simp [digitFree]
  cases xs with
  | nil =>
      have h0 : pvalReprL ([] : List PVal) ++ term :: s = term :: s := by
        simp [pvalReprL]
      rw [h0]
      simp [parseElems]
  | cons x rest =>
      obtain ⟨c, cr, hx, h1, h2, h3, _⟩ := pvalRepr_head x
      have hct : ¬ c = term := by
        rcases hterm with rfl | rfl | rfl
        · exact h1
        · exact h2
        · exact h3
      cases rest with
      | nil =>
          have hin : pvalReprL [x] ++ term :: s = c :: (cr ++ term :: s) := by
            simp [pvalReprL, hx]
          have hin2 : pvalRepr x ++ term :: s = c :: (cr ++ term :: s) := by
            simp [hx]
          simp only [psizeL] at hsz
          rw [hin]
          simp only [parseElems, if_neg hct]
          rw [← hin2, hPV x (term :: s) (by omega) hdf]
          rcases hterm with rfl | rfl | rfl <;> simp
      | cons y rest2 =>
          have hin : pvalReprL (x :: y :: rest2) ++ term :: s
              = c :: (cr ++ ',' :: ' ' :: (pvalReprL (y :: rest2) ++ term :: s)) := by
            simp [pvalReprL, hx]
          have hin2 : pvalRepr x ++ ',' :: ' ' :: (pvalReprL (y :: rest2) ++ term :: s)
              = c :: (cr ++ ',' :: ' ' :: (pvalReprL (y :: rest2) ++ term :: s)) := by
            simp [hx]
          simp only [psizeL] at hsz
          rw [hin]
          simp only [parseElems, if_neg hct]
          rw [← hin2, hPV x _ (by omega) (by simp [digitFree])]
          simp [hEL term (y :: rest2) s hterm (by simp only [psizeL]; omega)]

theorem parseEntries_step {g : Nat} (hPV : PVSound g) (hEN : ENSound g) :
    ENSound (g + 1) := by
  intro m s hsz
  cases m with
  | nil =>
      have h0 : pvalReprD ([] : List (String × PVal)) ++ '}' :: s = '}' :: s := by
        simp [pvalReprD]
      rw [h0]
      simp [parseEntries]
  | cons kv rest =>
      obtain ⟨k, v⟩ := kv
      obtain ⟨kd⟩ := k
      cases rest with
      | nil =>
          have hin : pvalReprD [(String.mk kd, v)] ++ '}' :: s
              = '\'' :: (esc kd ++ '\'' :: (':' :: ' ' :: (pvalRepr v ++ '}' :: s))) := by
            simp [pvalReprD, strRepr]
          simp only [psizeD] at hsz
          rw [hin]
          simp [parseEntries, parseStrAux_esc,
            hPV v ('}' :: s) (by omega) (by simp [digitFree])]
      | cons kv2 rest2 =>
          have hin : pvalReprD ((String.mk kd, v) :: kv2 :: rest2) ++ '}' :: s
              = '\'' :: (esc kd ++ '\'' :: (':' :: ' ' ::
                  (pvalRepr v ++ ',' :: ' ' :: (pvalReprD (kv2 :: rest2) ++ '}' :: s)))) := by
            simp [pvalReprD, strRepr]
          simp only [psizeD] at hsz
          rw [hin]
          simp [parseEntries, parseStrAux_esc,
            hPV v (',' :: ' ' :: (pvalReprD (kv2 :: rest2) ++ '}' :: s))
              (by omega) (by simp [digitFree]),
            hEN (kv2 :: rest2) s (by simp only [psizeD]; omega)]

theorem parsePV_step {g : Nat}
    (hAll : ∀ f, f ≤ g → PVSound f ∧ ELSound f ∧ ENSound f) :
    PVSound (g + 1) := by
  intro x s hsz hdf
  cases x with
  | vnone =>
      rw [show pvalRepr PVal.vnone ++ s = 'N' :: 'o' :: 'n' :: 'e' :: s from by
        simp [pvalRepr]]
      simp [parsePV, dropPrefix]
  | vbool b =>
      cases b with
      | true =>
          rw [show pvalRepr (PVal.vbool true) ++ s = 'T' :: 'r' :: 'u' :: 'e' :: s from by
            simp [pvalRepr]]
          simp [parsePV, dropPrefix]
      | false =>
          rw [show pvalRepr (PVal.vbool false) ++ s
              = 'F' :: 'a' :: 'l' :: 's' :: 'e' :: s from by simp [pvalRepr]]
          simp [parsePV, dropPrefix]
  | vint n =>
      simp only [psize] at hsz
      obtain ⟨g2, rfl⟩ : ∃ g2, g = g2 + 1 := ⟨g - 1, by omega⟩
      have hsd : ∀ c r, s = c :: r → c.isDigit = false := fun c r h => by
        subst h; simpa [digitFree] using hdf
      by_cases hn : n < 0
      · obtain ⟨htk, hdw⟩ :=
          takeWhile_append_all (natDigits n.natAbs) s (natDigits_digits _) hsd
        obtain ⟨dc, dcr, hnd, hdig⟩ := natDigits_head n.natAbs
        have hpd : parseDigitsVal (dc :: dcr) = n.natAbs := by
          rw [← hnd]; exact parseDigitsVal_natDigits _
        have hneg : -((n.natAbs : Nat) : Int) = n := by omega
        rw [show pvalRepr (PVal.vint n) ++ s = '-' :: (natDigits n.natAbs ++ s) from by
          simp [pvalRepr, intRepr, hn]]
        simp only [parsePV]
        rw [show dropPrefix "None".data ('-' :: (natDigits n.natAbs ++ s)) = none from by
          simp [dropPrefix]]
        rw [show dropPrefix "True".data ('-' :: (natDigits n.natAbs ++ s)) = none from by
          simp [dropPrefix]]
        rw [show dropPrefix "False".data ('-' :: (natDigits n.natAbs ++ s)) = none from by
          simp [dropPrefix]]
        rw [show dropPrefix "set()".data ('-' :: (natDigits n.natAbs ++ s)) = none from by
          simp [dropPrefix]]
        rw [show dropPrefix "frozenset(".data ('-' :: (natDigits n.natAbs ++ s)) = none from by
          simp [dropPrefix]]
        simp only [parsePVCore]
        simp only [show ¬ ('-' = '\'') from by decide, show ¬ ('-' = '[') from by decide,
          show ¬ ('-' = '(') from by decide, show ¬ ('-' = '\x7b') from by decide,
          show ¬ ('-' = '<') from by decide, if_neg, if_pos, reduceIte]
        simp [htk, hdw]
        rw [hnd]
        simp [hpd]
        rw [abs_of_neg hn, neg_neg]
      · obtain ⟨htk, hdw⟩ :=
          takeWhile_append_all (natDigits n.toNat) s (natDigits_digits _) hsd
        obtain ⟨dc, dcr, hnd, hdig⟩ := natDigits_head n.toNat
        have hne : ∀ p : Char, p.isDigit = false → ¬ dc = p := fun p hp =>
          digit_ne hdig hp
        have hback : dc :: (dcr ++ s) = natDigits n.toNat ++ s := by
          rw [hnd]; simp
        have hpd : parseDigitsVal (natDigits n.toNat) = n.toNat :=
          parseDigitsVal_natDigits _
        have hcoe : ((n.toNat : Nat) : Int) = n := by omega
        rw [show pvalRepr (PVal.vint n) ++ s = dc :: (dcr ++ s) from by
          simp [pvalRepr, intRepr, hn, hnd]]
        simp only [parsePV]
        rw [show dropPrefix "None".data (dc :: (dcr ++ s)) = none from by
          simp [dropPrefix, hne 'N' (by decide)]]
        rw [show dropPrefix "True".data (dc :: (dcr ++ s)) = none from by
          simp [dropPrefix, hne 'T' (by decide)]]
        rw [show dropPrefix "False".data (dc :: (dcr ++ s)) = none from by
          simp [dropPrefix, hne 'F' (by decide)]]
        rw [show dropPrefix "set()".data (dc :: (dcr ++ s)) = none from by
          simp [dropPrefix, hne 's' (by decide)]]
        rw [show dropPrefix "frozenset(".data (dc :: (dcr ++ s)) = none from by
          simp [dropPrefix, hne 'f' (by decide)]]
        simp only [parsePVCore, if_neg (hne '\'' (by decide)),
          if_neg (hne '[' (by decide)), if_neg (hne '(' (by decide)),
          if_neg (hne '{' (by decide)), if_neg (hne '<' (by decide)),
          if_neg (hne '-' (by decide)), hdig, if_pos rfl, reduceIte]
        rw [hback, htk, hdw, hpd, hcoe]
  | vstr k =>
      obtain ⟨kd⟩ := k
      simp only [psize] at hsz
      obtain ⟨g2, rfl⟩ : ∃ g2, g = g2 + 1 := ⟨g - 1, by omega⟩
      rw [show pvalRepr (PVal.vstr (String.mk kd)) ++ s
          = '\'' :: (esc kd ++ '\'' :: s) from by simp [pvalRepr, strRepr]]
      simp [parsePV, dropPrefix, parsePVCore, parseStrAux_esc]
  | vlist xs =>
      simp only [psize] at hsz
      obtain ⟨g2, rfl⟩ : ∃ g2, g = g2 + 1 := ⟨g - 1, by omega⟩
      have hel := (hAll g2 (by omega)).2.1 ']' xs s (Or.inl rfl) (by omega)
      rw [show pvalRepr (PVal.vlist xs) ++ s = '[' :: (pvalReprL xs ++ ']' :: s) from by
        simp [pvalRepr]]
      simp [parsePV, dropPrefix, parsePVCore, hel]
  | vtuple xs =>
      match xs with
      | [] =>
          simp only [psize, psizeL] at hsz
          obtain ⟨g2, rfl⟩ : ∃ g2, g = g2 + 1 := ⟨g - 1, by omega⟩
          obtain ⟨g3, rfl⟩ : ∃ g3, g2 = g3 + 1 := ⟨g2 - 1, by omega⟩
          rw [show pvalRepr (PVal.vtuple []) ++ s = '(' :: ')' :: s from by
            simp [pvalRepr]]
          simp [parsePV, dropPrefix, parsePVCore, parseTuple]
      | [x] =>
          simp only [psize, psizeL] at hsz
          obtain ⟨g2, rfl⟩ : ∃ g2, g = g2 + 1 := ⟨g - 1, by omega⟩
          obtain ⟨g3, rfl⟩ : ∃ g3, g2 = g3 + 1 := ⟨g2 - 1, by omega⟩
          obtain ⟨c, cr, hx, h1, h2, h3, _⟩ := pvalRepr_head x
          have hsh : pvalRepr x ++ ',' :: ')' :: s = c :: (cr ++ ',' :: ')' :: s) := by
            simp [hx]
          have hpv := (hAll g3 (by omega)).1 x (',' :: ')' :: s) (by omega)
            (by simp [digitFree])
          rw [show pvalRepr (PVal.vtuple [x]) ++ s
              = '(' :: (pvalRepr x ++ ',' :: ')' :: s) from by simp [pvalRepr]]
          simp only [parsePV]
          rw [show dropPrefix "None".data ('(' :: (pvalRepr x ++ ',' :: ')' :: s)) = none from by
            simp [dropPrefix]]
          rw [show dropPrefix "True".data ('(' :: (pvalRepr x ++ ',' :: ')' :: s)) = none from by
            simp [dropPrefix]]
          rw [show dropPrefix "False".data ('(' :: (pvalRepr x ++ ',' :: ')' :: s)) = none from by
            simp [dropPrefix]]
          rw [show dropPrefix "set()".data ('(' :: (pvalRepr x ++ ',' :: ')' :: s)) = none from by
            simp [dropPrefix]]
          rw [show dropPrefix "frozenset(".data ('(' :: (pvalRepr x ++ ',' :: ')' :: s)) = none from by
            simp [dropPrefix]]
          simp [parsePVCore]
          rw [hsh]
          simp only [parseTuple, if_neg h2]
          rw [← hsh, hpv]
          simp
      | x :: y :: r =>
          simp only [psize, psizeL] at hsz
          obtain ⟨g2, rfl⟩ : ∃ g2, g = g2 + 1 := ⟨g - 1, by omega⟩
          obtain ⟨g3, rfl⟩ : ∃ g3, g2 = g3 + 1 := ⟨g2 - 1, by omega⟩
          obtain ⟨c, cr, hx, h1, h2, h3, _⟩ := pvalRepr_head x
          have hp1 := psizeL_pos r
          have hsh : pvalRepr x ++ ',' :: ' ' :: (pvalReprL (y :: r) ++ ')' :: s)
              = c :: (cr ++ ',' :: ' ' :: (pvalReprL (y :: r) ++ ')' :: s)) := by
            simp [hx]
          have hpv := (hAll g3 (by omega)).1 x
            (',' :: ' ' :: (pvalReprL (y :: r) ++ ')' :: s)) (by omega)
            (by simp [digitFree])
          have hel := (hAll g3 (by omega)).2.1 ')' (y :: r) s (Or.inr (Or.inl rfl))
            (by simp only [psizeL]; omega)
          rw [show pvalRepr (PVal.vtuple (x :: y :: r)) ++ s
              = '(' :: (pvalRepr x ++ ',' :: ' ' :: (pvalReprL (y :: r) ++ ')' :: s)) from by
            simp [pvalRepr, pvalReprL]]
          simp only [parsePV]
          rw [show dropPrefix "None".data
              ('(' :: (pvalRepr x ++ ',' :: ' ' :: (pvalReprL (y :: r) ++ ')' :: s))) = none from by
            simp [dropPrefix]]
          rw [show dropPrefix "True".data
              ('(' :: (pvalRepr x ++ ',' :: ' ' :: (pvalReprL (y :: r) ++ ')' :: s))) = none from by
            simp [dropPrefix]]
          rw [show dropPrefix "False".data
              ('(' :: (pvalRepr x ++ ',' :: ' ' :: (pvalReprL (y :: r) ++ ')' :: s))) = none from by
            simp [dropPrefix]]
          rw [show dropPrefix "set()".data
              ('(' :: (pvalRepr x ++ ',' :: ' ' :: (pvalReprL (y :: r) ++ ')' :: s))) = none from by
            simp [dropPrefix]]
          rw [show dropPrefix "frozenset(".data
              ('(' :: (pvalRepr x ++ ',' :: ' ' :: (pvalReprL (y :: r) ++ ')' :: s))) = none from by
            simp [dropPrefix]]
          simp [parsePVCore]
          rw [hsh]
          simp only [parseTuple, if_neg h2]
          rw [← hsh, hpv]
          simp [hel]
  | vset xs =>
      match xs with
      | [] =>
          rw [show pvalRepr (PVal.vset []) ++ s = 's' :: 'e' :: 't' :: '(' :: ')' :: s from by
            simp [pvalRepr]]
          simp [parsePV, dropPrefix]
      | x :: rest =>
          simp only [psize, psizeL] at hsz
          obtain ⟨g2, rfl⟩ : ∃ g2, g = g2 + 1 := ⟨g - 1, by omega⟩
          obtain ⟨g3, rfl⟩ : ∃ g3, g2 = g3 + 1 := ⟨g2 - 1, by omega⟩
          rw [show pvalRepr (PVal.vset (x :: rest)) ++ s
              = '{' :: (pvalReprL (x :: rest) ++ '}' :: s) from by simp [pvalRepr]]
          simp only [parsePV]
          rw [show dropPrefix "None".data ('{' :: (pvalReprL (x :: rest) ++ '}' :: s)) = none from by
            simp [dropPrefix]]
          rw [show dropPrefix "True".data ('{' :: (pvalReprL (x :: rest) ++ '}' :: s)) = none from by
            simp [dropPrefix]]
          rw [show dropPrefix "False".data ('{' :: (pvalReprL (x :: rest) ++ '}' :: s)) = none from by
            simp [dropPrefix]]
          rw [show dropPrefix "set()".data ('{' :: (pvalReprL (x :: rest) ++ '}' :: s)) = none from by
            simp [dropPrefix]]
          rw [show dropPrefix "frozenset(".data ('{' :: (pvalReprL (x :: rest) ++ '}' :: s)) = none from by
            simp [dropPrefix]]
          simp [parsePVCore]
          by_cases hq : ∃ k, x = PVal.vstr k
          · obtain ⟨k, rfl⟩ := hq
            obtain ⟨kd⟩ := k
            cases rest with
            | nil =>
                rw [show pvalReprL [PVal.vstr (String.mk kd)] ++ '}' :: s
                    = '\'' :: (esc kd ++ '\'' :: '}' :: s) from by
                  simp [pvalReprL, pvalRepr, strRepr]]
                simp [parseBrace, parseStrAux_esc]
            | cons z rest3 =>
                have hel := (hAll g3 (by omega)).2.1 '}' (z :: rest3) s
                  (Or.inr (Or.inr rfl))
                  (by simp only [psizeL, psize] at hsz ⊢; omega)
                rw [show pvalReprL (PVal.vstr (String.mk kd) :: z :: rest3) ++ '}' :: s
                    = '\'' :: (esc kd ++ '\'' :: ',' :: ' ' ::
                        (pvalReprL (z :: rest3) ++ '}' :: s)) from by
                  simp [pvalReprL, pvalRepr, strRepr]]
                simp [parseBrace, parseStrAux_esc, hel]
          · obtain ⟨c, cr, hx, h1, h2, h3, h4⟩ := pvalRepr_head x
            have hcq : ¬ c = '\'' := fun h => hq (h4 h)
            cases rest with
            | nil =>
                have hsh : pvalRepr x ++ '}' :: s = c :: (cr ++ '}' :: s) := by
                  simp [hx]
                have hpv := (hAll g3 (by omega)).1 x ('}' :: s) (by omega)
                  (by simp [digitFree])
                rw [show pvalReprL [x] ++ '}' :: s = pvalRepr x ++ '}' :: s from by
                  simp [pvalReprL]]
                rw [hsh]
                simp only [parseBrace, if_neg h3, if_neg hcq]
                rw [← hsh, hpv]
                simp
            | cons z rest3 =>
                have hsh : pvalRepr x ++ ',' :: ' ' :: (pvalReprL (z :: rest3) ++ '}' :: s)
                    = c :: (cr ++ ',' :: ' ' :: (pvalReprL (z :: rest3) ++ '}' :: s)) := by
                  simp [hx]
                have hpv := (hAll g3 (by omega)).1 x
                  (',' :: ' ' :: (pvalReprL (z :: rest3) ++ '}' :: s))
                  (by simp only [psizeL] at hsz; omega) (by simp [digitFree])
                have hel := (hAll g3 (by omega)).2.1 '}' (z :: rest3) s
                  (Or.inr (Or.inr rfl))
                  (by simp only [psizeL] at hsz ⊢; omega)
                rw [show pvalReprL (x :: z :: rest3) ++ '}' :: s
                    = pvalRepr x ++ ',' :: ' ' :: (pvalReprL (z :: rest3) ++ '}' :: s) from by
                  simp [pvalReprL]]
                rw [hsh]
                simp only [parseBrace, if_neg h3, if_neg hcq]
                rw [← hsh, hpv]
                simp [hel]
  | vfrozenset xs =>
      match xs with
      | [] =>
          simp only [psize, psizeL] at hsz
          obtain ⟨g2, rfl⟩ : ∃ g2, g = g2 + 1 := ⟨g - 1, by omega⟩
          rw [show pvalRepr (PVal.vfrozenset []) ++ s
              = 'f' :: 'r' :: 'o' :: 'z' :: 'e' :: 'n' :: 's' :: 'e' :: 't' :: '(' :: ')' :: s from by
            simp [pvalRepr]]
          simp [parsePV, dropPrefix, parseFrozen]
      | x :: rest =>
          simp only [psize, psizeL] at hsz
          obtain ⟨g2, rfl⟩ : ∃ g2, g = g2 + 1 := ⟨g - 1, by omega⟩
          have hel := (hAll g2 (by omega)).2.1 '}' (x :: rest) (')' :: s)
            (Or.inr (Or.inr rfl)) (by simp only [psizeL]; omega)
          rw [show pvalRepr (PVal.vfrozenset (x :: rest)) ++ s
              = 'f' :: 'r' :: 'o' :: 'z' :: 'e' :: 'n' :: 's' :: 'e' :: 't' :: '(' :: '{' ::
                (pvalReprL (x :: rest) ++ '}' :: ')' :: s) from by simp [pvalRepr]]
          simp [parsePV, dropPrefix, parseFrozen, hel]
  | vdict m =>
      match m with
      | [] =>
          simp only [psize, psizeD] at hsz
          obtain ⟨g2, rfl⟩ : ∃ g2, g = g2 + 1 := ⟨g - 1, by omega⟩
          obtain ⟨g3, rfl⟩ : ∃ g3, g2 = g3 + 1 := ⟨g2 - 1, by omega⟩
          rw [show pvalRepr (PVal.vdict []) ++ s = '{' :: '}' :: s from by
            simp [pvalRepr, pvalReprD]]
          simp [parsePV, dropPrefix, parsePVCore, parseBrace]
      | (k, v) :: rest =>
          obtain ⟨kd⟩ := k
          simp only [psize, psizeD] at hsz
          obtain ⟨g2, rfl⟩ : ∃ g2, g = g2 + 1 := ⟨g - 1, by omega⟩
          obtain ⟨g3, rfl⟩ : ∃ g3, g2 = g3 + 1 := ⟨g2 - 1, by omega⟩
          rw [show pvalRepr (PVal.vdict ((String.mk kd, v) :: rest)) ++ s
              = '{' :: (pvalReprD ((String.mk kd, v) :: rest) ++ '}' :: s) from by
            simp [pvalRepr]]
          simp only [parsePV]
          rw [show dropPrefix "None".data
              ('{' :: (pvalReprD ((String.mk kd, v) :: rest) ++ '}' :: s)) = none from by
            simp [dropPrefix]]
          rw [show dropPrefix "True".data
              ('{' :: (pvalReprD ((String.mk kd, v) :: rest) ++ '}' :: s)) = none from by
            simp [dropPrefix]]
          rw [show dropPrefix "False".data
              ('{' :: (pvalReprD ((String.mk kd, v) :: rest) ++ '}' :: s)) = none from by
            simp [dropPrefix]]
          rw [show dropPrefix "set()".data
              ('{' :: (pvalReprD ((String.mk kd, v) :: rest) ++ '}' :: s)) = none from by
            simp [dropPrefix]]
          rw [show dropPrefix "frozenset(".data
              ('{' :: (pvalReprD ((String.mk kd, v) :: rest) ++ '}' :: s)) = none from by
            simp [dropPrefix]]
          simp [parsePVCore]
          cases rest with
          | nil =>
              have hpv := (hAll g3 (by omega)).1 v ('}' :: s) (by omega)
                (by simp [digitFree])
              rw [show pvalReprD [(String.mk kd, v)] ++ '}' :: s
                  = '\'' :: (esc kd ++ '\'' :: ':' :: ' ' :: (pvalRepr v ++ '}' :: s)) from by
                simp [pvalReprD, strRepr]]
              simp [parseBrace, parseStrAux_esc, hpv]
          | cons e2 rest3 =>
              have hpv := (hAll g3 (by omega)).1 v
                (',' :: ' ' :: (pvalReprD (e2 :: rest3) ++ '}' :: s))
                (by simp only [psizeD] at hsz; omega) (by simp [digitFree])
              have hen := (hAll g3 (by omega)).2.2 (e2 :: rest3) s
                (by simp only [psizeD] at hsz ⊢; omega)
              rw [show pvalReprD ((String.mk kd, v) :: e2 :: rest3) ++ '}' :: s
                  = '\'' :: (esc kd ++ '\'' :: ':' :: ' ' ::
                      (pvalRepr v ++ ',' :: ' ' :: (pvalReprD (e2 :: rest3) ++ '}' :: s))) from by
                simp [pvalReprD, strRepr]]
              simp [parseBrace, parseStrAux_esc, hpv, hen]
  | vobj cn =>
      simp only [psize] at hsz
      obtain ⟨g2, rfl⟩ : ∃ g2, g = g2 + 1 := ⟨g - 1, by omega⟩
      rw [show pvalRepr (PVal.vobj cn) ++ s
          = '<' :: (strRepr cn ++ (' ' :: 'o' :: 'b' :: 'j' :: 'e' :: 'c' :: 't' :: '>' :: s)) from by
        simp [pvalRepr]]
      simp [parsePV, dropPrefix, parsePVCore, parseStr_repr]

theorem parse_sound_all : ∀ f, PVSound f ∧ ELSound f ∧ ENSound f := by
  intro f
  induction f using Nat.strong_induction_on with
  | _ f ih =>
    match f with
    | 0 =>
        refine ⟨?_, ?_, ?_⟩
        · intro x s h _; omega
        · intro term xs s ht h; omega
        · intro m s h; omega
    | g + 1 =>
        have hg := ih g (by omega)
        exact ⟨parsePV_step (fun f2 h2 => ih f2 (by omega)),
          parseElems_step hg.1 hg.2.1, parseEntries_step hg.1 hg.2.2⟩

/-- The value decoder inverts the value printer. -/
theorem parsePV_repr (x : PVal) (s : List Char) (hdf : digitFree s = true) :
    parsePV (2 * psize x + 1) (pvalRepr x ++ s) = some (x, s) :=
  (parse_sound_all (2 * psize x + 1)).1 x s (by omega) hdf

/-- Soundness of `parseW` at a given fuel. -/
def PWSound (wf : Nat) : Prop := ∀ pfuel t s, wsize t ≤ wf → 2 * csize t < pfuel →
  parseW wf pfuel (wbRepr t ++ s) = some (t, s)

/-- Soundness of `parseWList` at a given fuel. -/
def PWLSound (wf : Nat) : Prop := ∀ pfuel ms s, wsizeL ms ≤ wf → 2 * csizeL ms < pfuel →
  parseWList wf pfuel (wbReprL ms ++ ']' :: s) = some (ms, ']' :: s)

/-- Soundness of `parseWDict` at a given fuel. -/
def PWDSound (wf : Nat) : Prop := ∀ pfuel tm s, wsizeD tm ≤ wf → 2 * csizeD tm < pfuel →
  parseWDict wf pfuel (wbReprD tm ++ '}' :: s) = some (tm, '}' :: s)

theorem wbRepr_head (t : WBType) : ∃ r, wbRepr t = '<' :: r :=
  ⟨(wbRepr t).tail, by cases t <;> simp [wbRepr]⟩

theorem parseWList_step {g : Nat} (hW : PWSound g) (hL : PWLSound g) :
    PWLSound (g + 1) := by
  intro pfuel ms s hw hc
  cases ms with
  | nil =>
      rw [show wbReprL ([] : List WBType) ++ ']' :: s = ']' :: s from by simp [wbReprL]]
      simp [parseWList]
  | cons t rest =>
      obtain ⟨tr, htr⟩ := wbRepr_head t
      simp only [wsizeL] at hw
      simp only [csizeL] at hc
      cases rest with
      | nil =>
          have hsh : wbRepr t ++ ']' :: s = '<' :: (tr ++ ']' :: s) := by simp [htr]
          have hwi := hW pfuel t (']' :: s) (by omega) (by omega)
          rw [show wbReprL [t] ++ ']' :: s = wbRepr t ++ ']' :: s from by simp [wbReprL]]
          rw [hsh]
          simp only [parseWList, show ¬ ('<' = ']') from by decide, if_neg,
            reduceIte, Bool.false_eq_true]
          rw [← hsh, hwi]
          simp
      | cons u rest2 =>
          have hsh : wbRepr t ++ ',' :: ' ' :: (wbReprL (u :: rest2) ++ ']' :: s)
              = '<' :: (tr ++ ',' :: ' ' :: (wbReprL (u :: rest2) ++ ']' :: s)) := by
            simp [htr]
          have hwi := hW pfuel t (',' :: ' ' :: (wbReprL (u :: rest2) ++ ']' :: s))
            (by omega) (by omega)
          have hli := hL pfuel (u :: rest2) s (by omega)
            (by simp only [csizeL]; simp only [csizeL] at hc; omega)
          rw [show wbReprL (t :: u :: rest2) ++ ']' :: s
              = wbRepr t ++ ',' :: ' ' :: (wbReprL (u :: rest2) ++ ']' :: s) from by
            simp [wbReprL]]
          rw [hsh]
          simp only [parseWList, show ¬ ('<' = ']') from by decide, if_neg,
            reduceIte, Bool.false_eq_true]
          rw [← hsh, hwi]
          simp [hli]

theorem parseWDict_step {g : Nat} (hW : PWSound g) (hD : PWDSound g) :
    PWDSound (g + 1) := by
  intro pfuel tm s hw hc
  cases tm with
  | nil =>
      rw [show wbReprD ([] : List (String × WBType)) ++ '}' :: s = '}' :: s from by
        simp [wbReprD]]
      simp [parseWDict]
  | cons kt rest =>
      obtain ⟨k, t⟩ := kt
      obtain ⟨kd⟩ := k
      simp only [wsizeD] at hw
      simp only [csizeD] at hc
      cases rest with
      | nil =>
          have hwi := hW pfuel t ('}' :: s) (by omega) (by omega)
          rw [show wbReprD [(String.mk kd, t)] ++ '}' :: s
              = '\'' :: (esc kd ++ '\'' :: ':' :: ' ' :: (wbRepr t ++ '}' :: s)) from by
            simp [wbReprD, strRepr]]
          simp [parseWDict, parseStrAux_esc, hwi]
      | cons e2 rest2 =>
          have hwi := hW pfuel t (',' :: ' ' :: (wbReprD (e2 :: rest2) ++ '}' :: s))
            (by omega) (by omega)
          have hdi := hD pfuel (e2 :: rest2) s (by omega)
            (by simp only [csizeD]; simp only [csizeD] at hc; omega)
          rw [show wbReprD ((String.mk kd, t) :: e2 :: rest2) ++ '}' :: s
              = '\'' :: (esc kd ++ '\'' :: ':' :: ' ' ::
                  (wbRepr t ++ ',' :: ' ' :: (wbReprD (e2 :: rest2) ++ '}' :: s))) from by
            simp [wbReprD, strRepr]]
          simp [parseWDict, parseStrAux_esc, hwi, hdi]

theorem parseW_step {g : Nat} (hW : PWSound g) (hL : PWLSound g)
    (hD : PWDSound g) : PWSound (g + 1) := by
  intro pfuel t s hw hc
  cases t with
  | never => simp [parseW, dropPrefix, wbRepr]
  | any => simp [parseW, dropPrefix, wbRepr]
  | unknown => simp [parseW, dropPrefix, wbRepr]
  | pynone => simp [parseW, dropPrefix, wbRepr]
  | text => simp [parseW, dropPrefix, wbRepr]
  | number => simp [parseW, dropPrefix, wbRepr]
  | boolean => simp [parseW, dropPrefix, wbRepr]
  | union ms =>
      simp only [wsize] at hw
      simp only [csize] at hc
      have hli := hL pfuel ms ('}' :: '>' :: s) (by omega) (by omega)
      rw [show wbRepr (.union ms) ++ s
          = "<WBType:union | \x7b'allowed_types': [".data
            ++ (wbReprL ms ++ ']' :: '}' :: '>' :: s) from by simp [wbRepr]]
      simp [parseW, dropPrefix, hli]
  | listT e =>
      simp only [wsize] at hw
      simp only [csize] at hc
      have hwi := hW pfuel e ('}' :: '>' :: s) (by omega) (by omega)
      rw [show wbRepr (.listT e) ++ s
          = "<WBType:list | \x7b'element_type': ".data ++ (wbRepr e ++ '}' :: '>' :: s)
          from by simp [wbRepr]]
      simp [parseW, dropPrefix, hwi]
  | dictT tm p =>
      simp only [wsize] at hw
      simp only [csize] at hc
      have hdi := hD pfuel tm
        (',' :: ' ' :: '\'' :: 'p' :: 'o' :: 'l' :: 'i' :: 'c' :: 'y' :: '\'' :: ':' :: ' ' :: '\'' ::
          ((policy_str p).data ++ '\'' :: '}' :: '>' :: s)) (by omega) (by omega)
      rw [show wbRepr (.dictT tm p) ++ s
          = "<WBType:dictionary | \x7b'type_map': \x7b".data
            ++ (wbReprD tm ++ '}' :: ',' :: ' ' :: '\'' :: 'p' :: 'o' :: 'l' :: 'i' :: 'c' :: 'y' ::
              '\'' :: ':' :: ' ' :: '\'' ::
              ((policy_str p).data ++ '\'' :: '}' :: '>' :: s)) from by simp [wbRepr]]
      simp [parseW, dropPrefix, hdi]
      cases p <;> simp [parseWPolicy, dropPrefix, policy_str]
  | const c =>
      simp only [csize] at hc
      by_cases hset : isinstance_set c = true
      · have hpv := (parse_sound_all pfuel).1 c
          (',' :: ' ' :: '\'' :: 'i' :: 's' :: '_' :: 's' :: 'e' :: 't' :: '\'' ::
            ':' :: ' ' :: 'T' :: 'r' :: 'u' :: 'e' :: '}' :: '>' :: s)
          (by omega) (by simp [digitFree])
        rw [show wbRepr (.const c) ++ s = "<WBType:const | \x7b'val': ".data
            ++ (pvalRepr c ++ (',' :: ' ' :: '\'' :: 'i' :: 's' :: '_' :: 's' :: 'e' :: 't' ::
              '\'' :: ':' :: ' ' :: 'T' :: 'r' :: 'u' :: 'e' :: '}' :: '>' :: s)) from by
          simp [wbRepr, hset]]
        simp [parseW, dropPrefix, hpv]
      · have hpv := (parse_sound_all pfuel).1 c ('}' :: '>' :: s)
          (by omega) (by simp [digitFree])
        rw [show wbRepr (.const c) ++ s = "<WBType:const | \x7b'val': ".data
            ++ (pvalRepr c ++ ('}' :: '>' :: s)) from by
          simp [wbRepr, hset]]
        simp [parseW, dropPrefix, hpv]
  | object cn =>
      rw [show wbRepr (.object cn) ++ s = "<WBType:object | \x7b'class_name': ".data
          ++ (strRepr cn ++ '}' :: '>' :: s) from by simp [wbRepr]]
      simp [parseW, dropPrefix, parseStr_repr]

theorem parseW_sound_all : ∀ wf, PWSound wf ∧ PWLSound wf ∧ PWDSound wf := by
  intro wf
  induction wf with
  | zero =>
      refine ⟨?_, ?_, ?_⟩
      · intro pfuel t s h _; have := wsize_pos t; omega
      · intro pfuel ms s h _; have := wsizeL_pos ms; omega
      · intro pfuel tm s h _; have := wsizeD_pos tm; omega
  | succ g ih =>
      exact ⟨parseW_step ih.1 ih.2.1 ih.2.2, parseWList_step ih.1 ih.2.1,
        parseWDict_step ih.1 ih.2.2⟩

/-- The printed form `str(t)` determines the descriptor: the sort key
used by `allowed_types.sort(key=str)` is injective. -/
theorem wbRepr_inj {a b : WBType} (h : wbRepr a = wbRepr b) : a = b := by
  have ha := (parseW_sound_all (wsize a + wsize b)).1
    (2 * (csize a + csize b) + 1) a [] (by omega) (by omega)
  have hb := (parseW_sound_all (wsize a + wsize b)).1
    (2 * (csize a + csize b) + 1) b [] (by have := wsize_pos a; omega) (by omega)
  rw [List.append_nil] at ha hb
  rw [h, hb] at ha
  simpa using ha.symm

instance : IsAntisymm WBType uLE :=
  ⟨fun _ _ h1 h2 => wbRepr_inj (lexLe_antisymm h1 h2)⟩

/-- Sorting by the (injective) `str` key maps permuted inputs to the
same list. -/
theorem pysort_eq_of_perm {l1 l2 : List WBType} (h : l1.Perm l2) :
    pysort l1 = pysort l2 :=
  List.eq_of_perm_of_sorted
    (((List.perm_insertionSort uLE l1).trans h).trans
      (List.perm_insertionSort uLE l2).symm)
    (List.sorted_insertionSort uLE l1) (List.sorted_insertionSort uLE l2)

theorem flatten_types_append (a b : List WBType) :
    flatten_types (a ++ b) = flatten_types a ++ flatten_types b := by
  induction a using flatten_types.induct with
  | case1 => simp [flatten_types]
  | case2 ms rest ih1 ih2 =>
      simp only [List.cons_append, flatten_types]
      rw [ih2, List.append_assoc]
  | case3 t rest hnu ih =>
      simp only [List.cons_append]
      rw [flatten_types.eq_def]
      conv_rhs => rw [flatten_types.eq_def]
      cases t <;> simp_all

/- ## The assignment / inference engine

`assign`, `TypeRegistry.type_of`, and the constructors they invoke,
translated loop by loop.  Every Python `raise` becomes `.error`; the
functions are total on the embedded universe (termination is by the
lexicographic measure ⟨value size, descriptor size⟩).

The `== NeverType` tests in the source go through `Type.__eq__`
(serialization comparison) and are modelled by `typeEq · NeverType`; the
single identity test `_elm_type is NeverType` in `ListType.__init__` is
modelled by literal equality with `NeverType`. -/

/-- `t is NeverType` / `isinstance(t, _NeverType)`-style tests: in the
model the `never` constructor is the unique `NeverType` value. -/
def isNever : WBType → Bool
  | .never => true
  | _ => false

/-- `isinstance(allowed_type, _UnknownType)`. -/
def isUnknown : WBType → Bool
  | .unknown => true
  | _ => false

/-- `py_obj.__class__.__name__`. -/
def py_class_name : PVal → String
  | .vnone => "NoneType"
  | .vbool _ => "bool"
  | .vint _ => "int"
  | .vstr _ => "str"
  | .vlist _ => "list"
  | .vtuple _ => "tuple"
  | .vset _ => "set"
  | .vfrozenset _ => "frozenset"
  | .vdict _ => "dict"
  | .vobj c => c

/-- Tail of `UnionType.assign`: append the unconsumed `Unknown`
placeholders, `_flatten_types`, `sort(key=str)`, and rebuild through the
`UnionType` constructor (which flattens and sorts once more). -/
def union_finish (resolved : List WBType) (unknown_count : Nat) : WBType :=
  UnionType_ofList (pysort (flatten_types
    (resolved ++ List.replicate unknown_count UnknownType)))

mutual

/-- `TypeRegistry.type_of`: dispatch on the value's exact runtime class;
registered handlers for `NoneType`, `bool`, `int`, `str`, the four
sequence classes (`ListType`) and `dict` (`DictType`); any other class
falls back to `ObjectType(py_obj)`.  (For a `set`/`frozenset` the
iteration order of `list(py_obj)` is the model's stored order.) -/
def type_of (v : PVal) : Except String WBType :=
  match v with
  | .vnone => .ok NoneType
  | .vbool _ => .ok BooleanType
  | .vint _ => .ok NumberType
  | .vstr _ => .ok TextType
  | .vlist xs => listFromPy xs
  | .vtuple xs => listFromPy xs
  | .vset xs => listFromPy xs
  | .vfrozenset xs => listFromPy xs
  | .vdict m => dictFromPy m KeyPolicy.EXACT
  | .vobj c => .ok (.object c)
termination_by (psize v, 0)
decreasing_by
  all_goals (first
    | (apply Prod.Lex.left
       try simp only [psize, psizeL, psizeD, wsize, wsizeL, wsizeD]
       omega)
    | (apply Prod.Lex.right
       try simp only [psize, psizeL, psizeD, wsize, wsizeL, wsizeD]
       omega))


/-- `_UnknownType.assign`: `NeverType if py_obj is None else
TypeRegistry.type_of(py_obj)`. -/
def unknown_assign (v : PVal) : Except String WBType :=
  if v = PVal.vnone then .ok NeverType else type_of v
termination_by (psize v, 1)
decreasing_by
  all_goals (first
    | (apply Prod.Lex.left
       try simp only [psize, psizeL, psizeD, wsize, wsizeL, wsizeD]
       omega)
    | (apply Prod.Lex.right
       try simp only [psize, psizeL, psizeD, wsize, wsizeL, wsizeD]
       omega))


/-- `ListType.__init__` element fold: starting descriptor `Unknown`
(or `Optional[Unknown]` when the sample contains `None`), narrow by each
element; a `Never` result (identity test `is NeverType`) raises
`TypeError`. -/
def consFold (elm_type : WBType) (xs : List PVal) : Except String WBType :=
  match xs with
  | [] => .ok elm_type
  | x :: rest =>
      match assign elm_type x with
      | .error e => .error e
      | .ok ne =>
          if isNever ne then
            .error "TypeError: List contained incompatible types"
          else consFold ne rest
termination_by (psizeL xs, 0)
decreasing_by
  all_goals (first
    | (apply Prod.Lex.left
       try simp only [psize, psizeL, psizeD, wsize, wsizeL, wsizeD]
       omega)
    | (apply Prod.Lex.right
       try simp only [psize, psizeL, psizeD, wsize, wsizeL, wsizeD]
       omega))


/-- `ListType(py_obj)`: fold the sample's elements and wrap the result
as the `element_type`. -/
def listFromPy (xs : List PVal) : Except String WBType :=
  let elm0 := if xs.any (fun x => x == PVal.vnone)
              then OptionalType UnknownType else UnknownType
  match consFold elm0 xs with
  | .error e => .error e
  | .ok elm => .ok (.listT elm)
termination_by (psizeL xs, 1)
decreasing_by
  all_goals (first
    | (apply Prod.Lex.left
       try simp only [psize, psizeL, psizeD, wsize, wsizeL, wsizeD]
       omega)
    | (apply Prod.Lex.right
       try simp only [psize, psizeL, psizeD, wsize, wsizeL, wsizeD]
       omega))


/-- `DictType(py_obj, key_policy)`: `{key: type_of(py_obj[key])}`. -/
def dictFromPyGo (m : List (String × PVal)) : Except String (List (String × WBType)) :=
  match m with
  | [] => .ok []
  | (k, pv) :: rest =>
      match type_of pv with
      | .error e => .error e
      | .ok t =>
          match dictFromPyGo rest with
          | .error e => .error e
          | .ok r => .ok ((k, t) :: r)
termination_by (psizeD m, 0)
decreasing_by
  all_goals (first
    | (apply Prod.Lex.left
       try simp only [psize, psizeL, psizeD, wsize, wsizeL, wsizeD]
       omega)
    | (apply Prod.Lex.right
       try simp only [psize, psizeL, psizeD, wsize, wsizeL, wsizeD]
       omega))


def dictFromPy (m : List (String × PVal)) (key_policy : KeyPolicy) :
    Except String WBType :=
  match dictFromPyGo m with
  | .error e => .error e
  | .ok tm => .ok (.dictT tm key_policy)
termination_by (psizeD m, 1)
decreasing_by
  all_goals (first
    | (apply Prod.Lex.left
       try simp only [psize, psizeL, psizeD, wsize, wsizeL, wsizeD]
       omega)
    | (apply Prod.Lex.right
       try simp only [psize, psizeL, psizeD, wsize, wsizeL, wsizeD]
       omega))


/-- `Type.assign`, dispatched over the concrete descriptor kinds. -/
def assign (t : WBType) (v : PVal) : Except String WBType :=
  match t with
  | .never => .ok NeverType
  | .any => .ok (if v = PVal.vnone then NeverType else AnyType)
  | .unknown => unknown_assign v
  | .pynone => .ok (if v = PVal.vnone then NoneType else NeverType)
  | .text => .ok (match v with | .vstr _ => TextType | _ => NeverType)
  | .number => .ok (match v with | .vint _ => NumberType | _ => NeverType)
  | .boolean => .ok (match v with | .vbool _ => BooleanType | _ => NeverType)
  | .union ms => union_assign ms v
  | .listT e =>
      match v with
      | .vlist xs => listFold e xs
      | .vtuple xs => listFold e xs
      | .vset xs => listFold e xs
      | .vfrozenset xs => listFold e xs
      | _ => .ok NeverType
  | .dictT tm p =>
      match v with
      | .vdict pym =>
          match dictLoop1 tm pym p with
          | .error e => .error e
          | .ok none => .ok NeverType
          | .ok (some ntm) =>
              match dictLoop2 pym ntm p with
              | .error e => .error e
              | .ok none => .ok NeverType
              | .ok (some final) => .ok (.dictT final p)
      | _ => .ok NeverType
  | .const c => .ok (if pyEq c v then .const c else NeverType)
  | .object cn => .ok (if py_class_name v = cn then .object cn else NeverType)
termination_by (psize v, 2 + wsize t)
decreasing_by
  all_goals (first
    | (apply Prod.Lex.left
       try simp only [psize, psizeL, psizeD, wsize, wsizeL, wsizeD]
       omega)
    | (apply Prod.Lex.right
       try simp only [psize, psizeL, psizeD, wsize, wsizeL, wsizeD]
       omega))


/-- The member scan of `UnionType.assign`: once `valid`, members are
kept verbatim; `Unknown` members are counted and skipped; otherwise the
member is narrowed, a `Never` result keeps the original member, and the
first success marks `valid`. -/
def unionScanGo (ms : List WBType) (v : PVal) (resolved_types : List WBType)
    (valid : Bool) (unknown_count : Nat) :
    Except String (List WBType × Bool × Nat) :=
  match ms with
  | [] => .ok (resolved_types, valid, unknown_count)
  | m :: rest =>
      if valid then unionScanGo rest v (resolved_types ++ [m]) valid unknown_count
      else if isUnknown m then
        unionScanGo rest v resolved_types valid (unknown_count + 1)
      else
        match assign m v with
        | .error e => .error e
        | .ok assigned_type =>
            if typeEq assigned_type NeverType then
              unionScanGo rest v (resolved_types ++ [m]) false unknown_count
            else unionScanGo rest v (resolved_types ++ [assigned_type]) true unknown_count
termination_by (psize v, 1 + wsizeL ms)
decreasing_by
  all_goals (first
    | (apply Prod.Lex.left
       try simp only [psize, psizeL, psizeD, wsize, wsizeL, wsizeD]
       omega)
    | (apply Prod.Lex.right
       try simp only [psize, psizeL, psizeD, wsize, wsizeL, wsizeD]
       omega))


/-- `UnionType.assign` after the scan: with no success and no `Unknown`
placeholder the union is `Never`; otherwise one placeholder is resolved
through `UnknownType.assign`. -/
def union_assign (ms : List WBType) (v : PVal) : Except String WBType :=
  match unionScanGo ms v [] false 0 with
  | .error e => .error e
  | .ok (resolved_types, valid, unknown_count) =>
      if valid then .ok (union_finish resolved_types unknown_count)
      else if unknown_count = 0 then .ok NeverType
      else
        match unknown_assign v with
        | .error e => .error e
        | .ok new_type =>
            if typeEq new_type NeverType then .ok NeverType
            else .ok (union_finish (resolved_types ++ [new_type]) (unknown_count - 1))
termination_by (psize v, 2 + wsizeL ms)
decreasing_by
  all_goals (first
    | (apply Prod.Lex.left
       try simp only [psize, psizeL, psizeD, wsize, wsizeL, wsizeD]
       omega)
    | (apply Prod.Lex.right
       try simp only [psize, psizeL, psizeD, wsize, wsizeL, wsizeD]
       omega))


/-- The element fold of `ListType.assign`; a `Never` narrowing makes the
whole assignment `Never`, otherwise the result is
`ListType(dtype=new_element_type)`. -/
def listFold (element_type : WBType) (xs : List PVal) : Except String WBType :=
  match xs with
  | [] => .ok (.listT element_type)
  | x :: rest =>
      match assign element_type x with
      | .error e => .error e
      | .ok ne =>
          if typeEq ne NeverType then .ok NeverType
          else listFold ne rest
termination_by (psizeL xs, 0)
decreasing_by
  all_goals (first
    | (apply Prod.Lex.left
       try simp only [psize, psizeL, psizeD, wsize, wsizeL, wsizeD]
       omega)
    | (apply Prod.Lex.right
       try simp only [psize, psizeL, psizeD, wsize, wsizeL, wsizeD]
       omega))


/-- `key in py_obj` plus `type_map[key].assign(py_obj[key])`, fused:
find the key's first occurrence and narrow against its value; `.ok none`
when the key is absent. -/
def dictFindAssign (key : String) (t : WBType) (pym : List (String × PVal)) :
    Except String (Option WBType) :=
  match pym with
  | [] => .ok none
  | (k2, pv) :: rest =>
      if key == k2 then
        match assign t pv with
        | .error e => .error e
        | .ok nt => .ok (some nt)
      else dictFindAssign key t rest
termination_by (psizeD pym, 1 + wsize t)
decreasing_by
  all_goals (first
    | (apply Prod.Lex.left
       try simp only [psize, psizeL, psizeD, wsize, wsizeL, wsizeD]
       omega)
    | (apply Prod.Lex.right
       try simp only [psize, psizeL, psizeD, wsize, wsizeL, wsizeD]
       omega))


/-- First loop of `DictType.assign` (over the known keys): a present key
narrows against the value (a `Never` fails the whole assignment); an
absent key narrows against `None`, and on failure the policy decides:
`EXACT` fails, `SUBSET`/`UNRESTRICTED` keep the original descriptor.
`.ok none` encodes the early `return NeverType`. -/
def dictLoop1 (type_map : List (String × WBType)) (pym : List (String × PVal))
    (policy : KeyPolicy) : Except String (Option (List (String × WBType))) :=
  match type_map with
  | [] => .ok (some [])
  | (key, t) :: rest =>
      match dictFindAssign key t pym with
      | .error e => .error e
      | .ok (some new_type) =>
          if typeEq new_type NeverType then .ok none
          else
            match dictLoop1 rest pym policy with
            | .error e => .error e
            | .ok none => .ok none
            | .ok (some ntm) => .ok (some ((key, new_type) :: ntm))
      | .ok none =>
          match assign t PVal.vnone with
          | .error e => .error e
          | .ok new_type =>
              if typeEq new_type NeverType then
                if policy == KeyPolicy.EXACT then .ok none
                else
                  match dictLoop1 rest pym policy with
                  | .error e => .error e
                  | .ok none => .ok none
                  | .ok (some ntm) => .ok (some ((key, t) :: ntm))
              else
                match dictLoop1 rest pym policy with
                | .error e => .error e
                | .ok none => .ok none
                | .ok (some ntm) => .ok (some ((key, new_type) :: ntm))
termination_by (1 + psizeD pym, 2 + wsizeD type_map)
decreasing_by
  all_goals (first
    | (apply Prod.Lex.left
       try simp only [psize, psizeL, psizeD, wsize, wsizeL, wsizeD]
       omega)
    | (apply Prod.Lex.right
       try simp only [psize, psizeL, psizeD, wsize, wsizeL, wsizeD]
       omega))


/-- Second loop of `DictType.assign` (over the value's keys): a key not
in `new_type_map` fails under `EXACT`/`SUBSET`; under `UNRESTRICTED` it
is added with `DictType(py_obj[key], policy)` for a mapping value and
`TypeRegistry.type_of(py_obj[key])` otherwise. -/
def dictLoop2 (pym : List (String × PVal)) (ntm : List (String × WBType))
    (policy : KeyPolicy) : Except String (Option (List (String × WBType))) :=
  match pym with
  | [] => .ok (some ntm)
  | (key, pv) :: rest =>
      if (ntm.lookup key).isSome then dictLoop2 rest ntm policy
      else if policy == KeyPolicy.EXACT || policy == KeyPolicy.SUBSET then
        .ok none
      else
        match pv with
        | .vdict md =>
            match dictFromPy md policy with
            | .error e => .error e
            | .ok nt => dictLoop2 rest (ntm ++ [(key, nt)]) policy
        | other =>
            match type_of other with
            | .error e => .error e
            | .ok nt => dictLoop2 rest (ntm ++ [(key, nt)]) policy
termination_by (psizeD pym, 0)
decreasing_by
  all_goals (first
    | (apply Prod.Lex.left
       try simp only [psize, psizeL, psizeD, wsize, wsizeL, wsizeD]
       omega)
    | (apply Prod.Lex.right
       try simp only [psize, psizeL, psizeD, wsize, wsizeL, wsizeD]
       omega))


end

/- ## Deserialization: `TypeRegistry.type_from_dict` and `Type.from_json`

`type_from_dict` reads `"wb_type"`, looks the name up in the registry
and dispatches to the kind's `from_json`.  The two guard statements in
the source construct `TypeError(...)` objects *without raising them*, so
on a missing or unregistered discriminant control reaches
`_type.from_json(...)` with `_type = None`, which raises
`AttributeError` — an accidental, but hard, error.

`Type.from_json` always builds
`cls(params=_json_obj_to_params_obj(json_dict.get("params", {})))`.
`_json_obj_to_params_obj` resolves nested `"wb_type"` objects through
the registry, walks plain dicts and lists, and passes scalars through. -/

/-- Decoded `params` trees: scalars, descriptors, and nested
lists/dicts of these. -/
inductive ParamsObj where
  | pv (v : PVal)
  | ty (t : WBType)
  | plist (xs : List ParamsObj)
  | pdict (m : List (String × ParamsObj))

/-- The message of the `AttributeError` that ends an unregistered
lookup. -/
def attr_error : String := "AttributeError: NoneType has no attribute from_json"

/-- The registered discriminants, in registration order
(`TypeRegistry.add` calls at module scope). -/
def registered_names : List String :=
  ["never", "any", "unknown", "none", "text", "number", "boolean",
   "list", "dictionary", "union", "object", "const"]

/-- Registry tags. -/
inductive RegKind where
  | kNever | kAny | kUnknown | kNone | kText | kNumber | kBoolean
  | kList | kDict | kUnion | kObject | kConst
  deriving DecidableEq

/-- `TypeRegistry.types_by_name().get(wb_type)`. -/
def types_by_name : String → Option RegKind := fun s =>
  if s = "never" then some .kNever
  else if s = "any" then some .kAny
  else if s = "unknown" then some .kUnknown
  else if s = "none" then some .kNone
  else if s = "text" then some .kText
  else if s = "number" then some .kNumber
  else if s = "boolean" then some .kBoolean
  else if s = "list" then some .kList
  else if s = "dictionary" then some .kDict
  else if s = "union" then some .kUnion
  else if s = "object" then some .kObject
  else if s = "const" then some .kConst
  else none

/-- All elements are decoded descriptors (`assert` of
`UnionType.__init__`). -/
def allTy : List ParamsObj → Option (List WBType)
  | [] => some []
  | .ty t :: r => (allTy r).map (t :: ·)
  | _ => none

/-- All entries are decoded descriptors (shape of a decoded
`type_map`). -/
def entriesTy : List (String × ParamsObj) → Option (List (String × WBType))
  | [] => some []
  | (k, .ty t) :: r => (entriesTy r).map ((k, t) :: ·)
  | _ => none

/-- `"E"`/`"S"`/`"U"` back to a policy. -/
def policy_of_str (s : String) : Option KeyPolicy :=
  if s = "E" then some .EXACT
  else if s = "S" then some .SUBSET
  else if s = "U" then some .UNRESTRICTED
  else none

mutual

/-- `TypeRegistry.type_from_dict`.  The unraised `TypeError`s are
no-ops; a failed name lookup ends in the `AttributeError` of
`None.from_json`. -/
def type_from_dict (m : List (String × PVal)) : Except String WBType :=
  match (match m.lookup "wb_type" with
         | some (.vstr s) => types_by_name s
         | _ => none) with
  | none => .error attr_error
  | some k => from_json k m
termination_by (psizeD m, 2)
decreasing_by
  apply Prod.Lex.right; omega

/-- `json_dict.get("params", {})` followed by
`_json_obj_to_params_obj` (fused so the recursion consumes the entry
list; `.get` takes the first occurrence). -/
def paramsDecode (m : List (String × PVal)) : Except String ParamsObj :=
  match m with
  | [] => .ok (.pdict [])
  | (k, p) :: rest =>
      if k == "params" then json_obj_to_params_obj p else paramsDecode rest
termination_by (psizeD m, 0)
decreasing_by
  · apply Prod.Lex.left; simp only [psizeD]; omega
  · apply Prod.Lex.left; simp only [psizeD]; omega

/-- `cls.from_json`, i.e. `cls(params=decoded)`, per registered kind:

* leaf kinds store the decoded params verbatim; the model drops them
  (every serialization this model produces has no `params` entry on a
  leaf, so nothing is lost on such inputs);
* `UnionType.__init__` asserts every member of `allowed_types` is a
  `Type`, then flattens and sorts (a missing key raises at the
  `params["allowed_types"]` access);
* `ListType.__init__` asserts `element_type` is a `Type`;
* `DictType.__init__` stores the params unchecked; decoded params whose
  shape lies outside the embedded descriptor universe are rejected with
  a model-restriction error (the source would store the junk silently);
* `ObjectType.__init__` asserts a non-empty `class_name`;
* `ConstType.__init__` asserts `py_obj.__class__ in
  _const_supported_types` even on the params path, and `py_obj` is
  `None` here, so the assertion always fails. -/
def from_json (k : RegKind) (m : List (String × PVal)) : Except String WBType :=
  match paramsDecode m with
  | .error e => .error e
  | .ok pobj =>
      match k with
      | .kNever => .ok NeverType
      | .kAny => .ok AnyType
      | .kUnknown => .ok UnknownType
      | .kNone => .ok NoneType
      | .kText => .ok TextType
      | .kNumber => .ok NumberType
      | .kBoolean => .ok BooleanType
      | .kUnion =>
          match pobj with
          | .pdict pm =>
              match pm.lookup "allowed_types" with
              | some (.plist items) =>
                  match allTy items with
                  | some ts => .ok (UnionType_ofList ts)
                  | none => .error "AssertionError"
              | some _ => .error "AssertionError"
              | none => .error "KeyError: allowed_types"
          | _ => .error "AssertionError"
      | .kList =>
          match pobj with
          | .pdict pm =>
              match pm.lookup "element_type" with
              | some (.ty e) => .ok (.listT e)
              | _ => .error "AssertionError"
          | _ => .error "AssertionError"
      | .kDict =>
          match pobj with
          | .pdict pm =>
              match pm.lookup "type_map", pm.lookup "policy" with
              | some (.pdict tmp), some (.pv (.vstr ps)) =>
                  match entriesTy tmp, policy_of_str ps with
                  | some tm, some p => .ok (.dictT tm p)
                  | _, _ => .error "ModelRestriction: DictType params"
              | _, _ => .error "ModelRestriction: DictType params"
          | _ => .error "ModelRestriction: DictType params"
      | .kObject =>
          match pobj with
          | .pdict pm =>
              match pm.lookup "class_name" with
              | some (.pv (.vstr c)) =>
                  if c = "" then .error "AssertionError" else .ok (.object c)
              | _ => .error "AssertionError"
          | _ => .error "AssertionError"
      | .kConst => .error "AssertionError"
termination_by (psizeD m, 1)
decreasing_by
  apply Prod.Lex.right; omega

/-- `_json_obj_to_params_obj`: a dict containing `"wb_type"` resolves
through the registry; other dicts and lists are walked; scalars (and
sets/tuples) pass through. -/
def json_obj_to_params_obj (j : PVal) : Except String ParamsObj :=
  match j with
  | .vdict m =>
      if (m.lookup "wb_type").isSome then
        match type_from_dict m with
        | .error e => .error e
        | .ok t => .ok (.ty t)
      else
        match jsonToParamsD m with
        | .error e => .error e
        | .ok pm => .ok (.pdict pm)
  | .vlist xs =>
      match jsonToParamsL xs with
      | .error e => .error e
      | .ok ps => .ok (.plist ps)
  | other => .ok (.pv other)
termination_by (psize j, 3)
decreasing_by
  · apply Prod.Lex.left; simp only [psize]; omega
  · apply Prod.Lex.left; simp only [psize]; omega
  · apply Prod.Lex.left; simp only [psize]; omega

def jsonToParamsD (m : List (String × PVal)) :
    Except String (List (String × ParamsObj)) :=
  match m with
  | [] => .ok []
  | (k, v) :: rest =>
      match json_obj_to_params_obj v with
      | .error e => .error e
      | .ok p =>
          match jsonToParamsD rest with
          | .error e => .error e
          | .ok r => .ok ((k, p) :: r)
termination_by (psizeD m, 0)
decreasing_by
  · apply Prod.Lex.left; simp only [psizeD]; omega
  · apply Prod.Lex.left; simp only [psizeD]; omega

def jsonToParamsL (xs : List PVal) : Except String (List ParamsObj) :=
  match xs with
  | [] => .ok []
  | x :: rest =>
      match json_obj_to_params_obj x with
      | .error e => .error e
      | .ok p =>
          match jsonToParamsL rest with
          | .error e => .error e
          | .ok r => .ok (p :: r)
termination_by (psizeL xs, 0)
decreasing_by
  · apply Prod.Lex.left; simp only [psizeL]; omega
  · apply Prod.Lex.left; simp only [psizeL]; omega

end

/-- `type_from_dict` on a serialized descriptor (`to_json` always yields
a JSON object). -/
def type_from_dict_of_json (t : WBType) : Except String WBType :=
  match to_json t with
  | .vdict m => type_from_dict m
  | _ => .error "unreachable"

/- ## Descriptor equality at the claim level -/

/-- `Type.__eq__`: `self is other or self.to_json() == other.to_json()`.
Literal model equality stands in for object identity. -/
def type_eq (a b : WBType) : Prop := a = b ∨ typeEq a b = true

/-- A serialization comparison against `NeverType` succeeds exactly for
`NeverType` itself: every other kind serializes a different `wb_type`
name (and composite kinds also a `params` entry). -/
theorem typeEq_never_iff (t : WBType) : typeEq t NeverType = true ↔ t = NeverType := by
  cases t <;>
    simp +decide [typeEq, to_json, NeverType, pyEq, pyDictSub, pyKeysSub,
      pyLookupEq, List.lookup]

theorem typeEq_never_false_of_ne {t : WBType} (h : t ≠ NeverType) :
    typeEq t NeverType = false := by
  rcases hb : typeEq t NeverType with _ | _
  · rfl
  · exact absurd ((typeEq_never_iff t).mp hb) h

/- ## Registry lookup lemmas -/

theorem types_by_name_eq_none {s : String} (h : s ∉ registered_names) :
    types_by_name s = none := by
  simp only [registered_names, List.mem_cons, List.mem_singleton, not_or,
    List.not_mem_nil, or_false] at h
  obtain ⟨h1, h2, h3, h4, h5, h6, h7, h8, h9, h10, h11, h12⟩ := h
  simp [types_by_name, h1, h2, h3, h4, h5, h6, h7, h8, h9, h10, h11, h12]

/-- C2.  A JSON object that lacks `"wb_type"`, or whose `"wb_type"`
value is not the name of a registered kind, makes
`TypeRegistry.type_from_dict` raise (the `AttributeError` of
`None.from_json`); it never returns a value. -/
theorem type_from_dict_fails_loudly (m : List (String × PVal))
    (h : ∀ s, m.lookup "wb_type" = some (.vstr s) → s ∉ registered_names) :
    type_from_dict m = .error attr_error := by
  rcases hl : m.lookup "wb_type" with _ | v
  · simp [type_from_dict, hl]
  · cases v <;> simp [type_from_dict, hl]
    case vstr s => rw [types_by_name_eq_none (h s hl)]

/-- Witness for C2: the empty JSON object, and one whose discriminant
names no registered kind. -/
theorem type_from_dict_fails_loudly_witness :
    type_from_dict [] = .error attr_error ∧
    type_from_dict [("wb_type", .vstr "float")] = .error attr_error := by
  constructor
  · exact type_from_dict_fails_loudly [] (by intro s hs; simp [List.lookup] at hs)
  · exact type_from_dict_fails_loudly _ (by
      intro s hs
      simp [List.lookup] at hs
      subst hs
      decide)

/-- `py_obj.__class__ in ListType.types`, i.e. the value's exact class
is `list`, `tuple`, `set` or `frozenset`. -/
def is_list_class : PVal → Bool
  | .vlist _ => true
  | .vtuple _ => true
  | .vset _ => true
  | .vfrozenset _ => true
  | _ => false

/-- C9.  `ListType.assign` returns `Never` for every value whose exact
class is not one of `list`, `tuple`, `set`, `frozenset` — in particular
for every string and for `None`. -/
theorem list_assign_wrong_class (e : WBType) (v : PVal)
    (h : is_list_class v = false) : assign (.listT e) v = .ok NeverType := by
  cases v <;> simp [is_list_class] at h <;> simp [assign]

/-- Witness for C9: a string, `None`, a dict and a generic object are
all rejected by a `ListType`. -/
theorem list_assign_wrong_class_witness :
    assign (.listT NumberType) (.vstr "abc") = .ok NeverType ∧
    assign (.listT NumberType) .vnone = .ok NeverType ∧
    assign (.listT NumberType) (.vdict []) = .ok NeverType ∧
    assign (.listT NumberType) (.vobj "Foo") = .ok NeverType :=
  ⟨list_assign_wrong_class _ _ rfl, list_assign_wrong_class _ _ rfl,
   list_assign_wrong_class _ _ rfl, list_assign_wrong_class _ _ rfl⟩

/-- C1 (code bug).  `ConstType.__init__` asserts
`py_obj.__class__ in _const_supported_types` even when constructing
from `params`, and `from_json` passes `py_obj=None`, so deserializing
the serialization of `ConstType(1)` raises `AssertionError` instead of
returning an equal descriptor: the round-trip contract fails on every
`Const` descriptor. -/
theorem const_roundtrip_assertion_bug :
    to_json (WBType.const (.vint 1)) =
      .vdict [("wb_type", .vstr "const"), ("params", .vdict [("val", .vint 1)])] ∧
    type_from_dict
      [("wb_type", .vstr "const"), ("params", .vdict [("val", .vint 1)])] =
      .error "AssertionError" := by
  constructor
  · simp [to_json, isinstance_set]
  · simp +decide [type_from_dict, types_by_name, from_json, paramsDecode,
      json_obj_to_params_obj, jsonToParamsD, List.lookup]

/- ## C3 / C10 counterexamples: `assign` can raise -/

/-- C3 counterexample.  `assign` is not total: on the leaf singleton
`Unknown`, assigning the heterogeneous list `[1, "a"]` re-infers through
`TypeRegistry.type_of`, whose `ListType` construction raises
`TypeError` — the mismatch is not returned as the `Never` value. -/
theorem assign_unknown_heterogeneous_list_raises :
    assign UnknownType (.vlist [.vint 1, .vstr "a"]) =
      .error "TypeError: List contained incompatible types" := by
  simp +decide [assign, unknown_assign, type_of, listFromPy, consFold, isNever,
    typeEq, to_json, pyEq, pyDictSub, pyKeysSub, pyLookupEq, NeverType,
    NumberType, UnknownType, UnionType_ofList, OptionalType]

/-- C10 counterexample.  A union holding an `Unknown` member *can* fail
on a non-`None` value: consuming the placeholder calls
`TypeRegistry.type_of`, which raises on a heterogeneous list rather than
always succeeding, so the assignment raises instead of returning a
descriptor. -/
theorem union_with_unknown_raises :
    UnionType_ofList [UnknownType] = .union [UnknownType] ∧
    assign (.union [UnknownType]) (.vlist [.vint 1, .vstr "a"]) =
      .error "TypeError: List contained incompatible types" := by
  constructor
  · simp [UnionType_ofList, pysort, flatten_types, List.insertionSort,
      UnknownType]
  · simp +decide [assign, union_assign, unionScanGo, unknown_assign, type_of,
      listFromPy, consFold, isNever, isUnknown, typeEq, to_json, pyEq,
      pyDictSub, pyKeysSub, pyLookupEq, NeverType, NumberType, UnknownType,
      UnionType_ofList, OptionalType]

/- ## C5 counterexample: the `UNRESTRICTED` policy is not propagated
below the first nesting level -/

/-- C5 counterexample.  Under `UNRESTRICTED`, an unknown key whose value
is a mapping becomes `DictType(py_obj[key], policy)` — but *its* nested
mapping values are inferred with `TypeRegistry.type_of`, whose
`DictType` handler uses the default `EXACT` policy.  Assigning
`{"b": {"c": {"d": 1}}}` to an empty `UNRESTRICTED` dict yields an inner
`EXACT` dict at depth two, not the same-policy dict the claim
requires. -/
theorem dict_unrestricted_nested_policy_counterexample :
    assign (.dictT [] .UNRESTRICTED)
        (.vdict [("b", .vdict [("c", .vdict [("d", .vint 1)])])]) =
      .ok (.dictT [("b", .dictT [("c", .dictT [("d", NumberType)] .EXACT)]
             .UNRESTRICTED)] .UNRESTRICTED) ∧
    ¬ type_eq
        (.dictT [("b", .dictT [("c", .dictT [("d", NumberType)] .EXACT)]
           .UNRESTRICTED)] .UNRESTRICTED)
        (.dictT [("b", .dictT [("c", .dictT [("d", NumberType)] .UNRESTRICTED)]
           .UNRESTRICTED)] .UNRESTRICTED) := by
  constructor
  · simp +decide [assign, dictLoop1, dictLoop2, dictFindAssign, dictFromPy,
      dictFromPyGo, type_of, typeEq, to_json, to_jsonD, pyEq, pyDictSub,
      pyKeysSub, pyLookupEq, List.lookup, NeverType, NumberType, policy_str]
  · rintro (h | h)
    · simp at h
    · simp +decide [typeEq, to_json, to_jsonD, pyEq, pyEqL, pyDictSub,
        pyKeysSub, pyLookupEq, List.lookup, policy_str, NumberType] at h

/- ## C6 counterexample: `assign` is not an idempotent narrowing -/

/-- The receiver of the C6 counterexample: a list of a union of two
dict descriptors, built through the public constructors. -/
def c6_T : WBType :=
  .listT (UnionType_ofList [.dictT [("a", NumberType)] .EXACT,
                            .dictT [] .UNRESTRICTED])

/-- The C6 value: the union's `EXACT` member accepts the first element;
the second element is accepted by the `UNRESTRICTED` member, whose
narrowed form sorts in front. -/
def c6_v : PVal := .vlist [.vdict [("a", .vint 1)], .vdict [("A", .vint 2)]]

/-- C6 counterexample.  `T' = T.assign(v)` and `T'' = T'.assign(v)` are
serialization-unequal: in the second pass the re-sorted
`UNRESTRICTED` dict member wins the union scan before the `EXACT`
member and absorbs the key `"a"`, so the second assignment of the same
value is not a no-op. -/
theorem assign_not_idempotent :
    assign c6_T c6_v =
      .ok (.listT (.union [.dictT [("A", NumberType)] .UNRESTRICTED,
                           .dictT [("a", NumberType)] .EXACT])) ∧
    assign (.listT (.union [.dictT [("A", NumberType)] .UNRESTRICTED,
                            .dictT [("a", NumberType)] .EXACT])) c6_v =
      .ok (.listT (.union [.dictT [("A", NumberType), ("a", NumberType)] .UNRESTRICTED,
                           .dictT [("a", NumberType)] .EXACT])) ∧
    ¬ type_eq
        (.listT (.union [.dictT [("A", NumberType), ("a", NumberType)] .UNRESTRICTED,
                         .dictT [("a", NumberType)] .EXACT]))
        (.listT (.union [.dictT [("A", NumberType)] .UNRESTRICTED,
                         .dictT [("a", NumberType)] .EXACT])) := by
  refine ⟨?_, ?_, ?_⟩
  · simp +decide [c6_T, c6_v, assign, listFold, union_assign, unionScanGo,
      union_finish, UnionType_ofList, pysort, flatten_types,
      List.insertionSort, List.orderedInsert, uLE, lexLe, wbRepr, wbReprD,
      wbReprL, strRepr, esc, policy_str, isUnknown, isNever, dictLoop1,
      dictLoop2, dictFindAssign, dictFromPy, dictFromPyGo, type_of, typeEq,
      to_json, to_jsonL, to_jsonD, pyEq, pyDictSub, pyKeysSub, pyLookupEq,
      NeverType, NumberType, UnknownType, unknown_assign, List.lookup]
  · simp +decide [c6_v, assign, listFold, union_assign, unionScanGo,
      union_finish, UnionType_ofList, pysort, flatten_types,
      List.insertionSort, List.orderedInsert, uLE, lexLe, wbRepr, wbReprD,
      wbReprL, strRepr, esc, policy_str, isUnknown, isNever, dictLoop1,
      dictLoop2, dictFindAssign, dictFromPy, dictFromPyGo, type_of, typeEq,
      to_json, to_jsonL, to_jsonD, pyEq, pyDictSub, pyKeysSub, pyLookupEq,
      NeverType, NumberType, UnknownType, unknown_assign, List.lookup]
  · rintro (h | h)
    · simp at h
    · simp +decide [typeEq, to_json, to_jsonL, to_jsonD, pyEq, pyEqL,
        pyDictSub, pyKeysSub, pyLookupEq, List.lookup, policy_str,
        NumberType] at h

/- ## C6 amended: idempotence for the non-recursive kinds -/

/-- The descriptor kinds whose `assign` returns either the receiver
itself or `Never`. -/
def nonrecursive_kind : WBType → Bool
  | .never => true
  | .any => true
  | .pynone => true
  | .text => true
  | .number => true
  | .boolean => true
  | .const _ => true
  | .object _ => true
  | _ => false

theorem assign_self_or_never_of_nonrecursive {T T' : WBType} {v : PVal}
    (hk : nonrecursive_kind T = true) (h : assign T v = .ok T') :
    T' = T ∨ T' = NeverType := by
  cases T <;> simp [nonrecursive_kind] at hk
  case never => simp only [assign, NeverType, Except.ok.injEq] at h; right; exact h.symm
  case any =>
    by_cases hv : v = PVal.vnone <;>
      simp only [assign, hv, reduceIte, Except.ok.injEq] at h
    · right; exact h.symm
    · left; exact h.symm
  case pynone =>
    by_cases hv : v = PVal.vnone <;>
      simp only [assign, hv, reduceIte, Except.ok.injEq] at h
    · left; exact h.symm
    · right; exact h.symm
  case text =>
    cases v <;> simp only [assign, Except.ok.injEq] at h <;>
      first
        | (left; exact h.symm)
        | (right; exact h.symm)
  case number =>
    cases v <;> simp only [assign, Except.ok.injEq] at h <;>
      first
        | (left; exact h.symm)
        | (right; exact h.symm)
  case boolean =>
    cases v <;> simp only [assign, Except.ok.injEq] at h <;>
      first
        | (left; exact h.symm)
        | (right; exact h.symm)
  case const c =>
    by_cases hc : pyEq c v = true <;>
      simp only [assign, hc, Bool.false_eq_true, reduceIte, Except.ok.injEq] at h
    · left; exact h.symm
    · right; exact h.symm
  case object cn =>
    by_cases hc : py_class_name v = cn <;>
      simp only [assign, hc, reduceIte, Except.ok.injEq] at h
    · left; exact h.symm
    · right; exact h.symm

theorem assign_fix_of_nonrecursive {T T' : WBType} {v : PVal}
    (hk : nonrecursive_kind T = true) (h : assign T v = .ok T') :
    assign T' v = .ok T' := by
  rcases assign_self_or_never_of_nonrecursive hk h with rfl | rfl
  · exact h
  · simp [assign, NeverType]

/-- C6, amended.  For every non-recursive receiver `T` (`Never`, `Any`,
`None`, `Text`, `Number`, `Boolean`, any `Const`, any `Object`) and
every value `v`, if `T' = T.assign(v)` then `T'.assign(v) == T'` — the
second assignment returns `T'` itself.  (For composite receivers the
property fails; see the counterexample.) -/
theorem assign_idempotent_for_nonrecursive (T T' : WBType) (v : PVal)
    (hk : nonrecursive_kind T = true) (h : assign T v = .ok T') :
    ∃ Tq, assign T' v = .ok Tq ∧ type_eq Tq T' :=
  ⟨T', assign_fix_of_nonrecursive hk h, Or.inl rfl⟩

/-- Witness for the amended C6: `Number.assign(3)` twice, and
`Const("x").assign(5)` twice. -/
theorem assign_idempotent_for_nonrecursive_witness :
    (∃ Tq, assign NumberType (.vint 3) = .ok Tq ∧ type_eq Tq NumberType) ∧
    (∃ Tq, assign NeverType (.vint 5) = .ok Tq ∧ type_eq Tq NeverType) := by
  constructor
  · exact assign_idempotent_for_nonrecursive NumberType NumberType (.vint 3) rfl
      (by simp [assign, NumberType])
  · exact assign_idempotent_for_nonrecursive (.const (.vstr "x")) NeverType (.vint 5) rfl
      (by simp [assign, pyEq, NeverType])

/- ## Lemmas about the union member scan -/

/-- The non-`Unknown` members, in order. -/
def nonUnknowns (l : List WBType) : List WBType := l.filter (fun m => !(isUnknown m))

/-- The number of `Unknown` members. -/
def unknownCount (l : List WBType) : Nat := l.countP (fun m => isUnknown m)

theorem unionScanGo_append (l1 l2 : List WBType) (v : PVal)
    (res : List WBType) (valid : Bool) (uc : Nat) :
    unionScanGo (l1 ++ l2) v res valid uc =
      match unionScanGo l1 v res valid uc with
      | .error e => .error e
      | .ok (r, va, u) => unionScanGo l2 v r va u := by
  induction l1 generalizing res valid uc with
  | nil => simp [unionScanGo]
  | cons m rest ih =>
    cases valid with
    | true => simp only [List.cons_append, unionScanGo, if_pos]; exact ih ..
    | false =>
      by_cases hu : isUnknown m = true
      · simp only [List.cons_append, unionScanGo, hu, Bool.false_eq_true,
          reduceIte]
        exact ih ..
      · simp only [List.cons_append, unionScanGo, hu, Bool.false_eq_true,
          reduceIte]
        cases assign m v with
        | error e => rfl
        | ok assigned =>
          by_cases hn : typeEq assigned NeverType = true <;>
            simp only [hn, Bool.false_eq_true, reduceIte] <;> exact ih ..

theorem unionScanGo_valid (l : List WBType) (v : PVal) (res : List WBType)
    (uc : Nat) : unionScanGo l v res true uc = .ok (res ++ l, true, uc) := by
  induction l generalizing res with
  | nil => simp [unionScanGo]
  | cons m rest ih => simp [unionScanGo, ih]

theorem unionScanGo_rejecting (l : List WBType) (v : PVal) (res : List WBType)
    (uc : Nat)
    (h : ∀ m ∈ l, isUnknown m = true ∨
         ∃ n, assign m v = .ok n ∧ typeEq n NeverType = true) :
    unionScanGo l v res false uc =
      .ok (res ++ nonUnknowns l, false, uc + unknownCount l) := by
  induction l generalizing res uc with
  | nil => simp [unionScanGo, nonUnknowns, unknownCount]
  | cons m rest ih =>
    by_cases hu : isUnknown m = true
    · simp only [unionScanGo, hu, Bool.false_eq_true, reduceIte]
      rw [ih res (uc + 1) (fun x hx => h x (List.mem_cons_of_mem m hx))]
      simp [nonUnknowns, unknownCount, hu, List.countP_cons]
      omega
    · rcases h m (List.mem_cons_self m rest) with hcu | ⟨n, hn, hnn⟩
      · exact absurd hcu hu
      · simp only [unionScanGo, hu, Bool.false_eq_true, reduceIte, hn, hnn]
        rw [ih (res ++ [m]) uc (fun x hx => h x (List.mem_cons_of_mem m hx))]
        simp [nonUnknowns, unknownCount, hu, List.countP_cons]

theorem unionScanGo_unknown_mem (l : List WBType) (v : PVal)
    (res : List WBType) (valid : Bool) (uc : Nat) (r : List WBType)
    (va : Bool) (u : Nat)
    (hm : valid = true ∨ UnknownType ∈ l ∨ 1 ≤ uc)
    (h : unionScanGo l v res valid uc = .ok (r, va, u)) :
    va = true ∨ 1 ≤ u := by
  induction l generalizing res valid uc with
  | nil =>
    simp only [unionScanGo, Except.ok.injEq, Prod.mk.injEq] at h
    obtain ⟨-, h2, h3⟩ := h
    rcases hm with hm | hm | hm
    · left; rw [← h2, hm]
    · simp at hm
    · right; omega
  | cons m rest ih =>
    cases valid with
    | true =>
      rw [unionScanGo_valid] at h
      simp only [Except.ok.injEq, Prod.mk.injEq] at h
      left; exact h.2.1.symm
    | false =>
      by_cases hu : isUnknown m = true
      · simp only [unionScanGo, hu, Bool.false_eq_true, reduceIte] at h
        exact ih _ _ _ (Or.inr (Or.inr (by omega))) h
      · simp only [unionScanGo, hu, Bool.false_eq_true, reduceIte] at h
        have hm' : UnknownType ∈ rest ∨ 1 ≤ uc := by
          rcases hm with hm | hm | hm
          · simp at hm
          · rcases List.mem_cons.mp hm with rfl | hmr
            · simp [isUnknown, UnknownType] at hu
            · left; exact hmr
          · right; exact hm
        cases ha : assign m v with
        | error e => rw [ha] at h; simp at h
        | ok assigned =>
          rw [ha] at h
          by_cases hn : typeEq assigned NeverType = true
          · simp only [hn, reduceIte] at h
            exact ih _ _ _ (Or.inr hm') h
          · simp only [hn, Bool.false_eq_true, reduceIte] at h
            rw [unionScanGo_valid] at h
            simp only [Except.ok.injEq, Prod.mk.injEq] at h
            left; exact h.2.1.symm

/- ## Result-shape lemmas -/

theorem listFromPy_shape {xs : List PVal} {r : WBType}
    (h : listFromPy xs = .ok r) : ∃ e, r = .listT e := by
  simp only [listFromPy] at h
  cases hc : consFold (if xs.any fun x => x == PVal.vnone then
      OptionalType UnknownType else UnknownType) xs with
  | error e => rw [hc] at h; simp at h
  | ok elm => rw [hc] at h; simp only [Except.ok.injEq] at h; exact ⟨elm, h.symm⟩

theorem dictFromPy_shape {m : List (String × PVal)} {p : KeyPolicy} {r : WBType}
    (h : dictFromPy m p = .ok r) : ∃ tm, r = .dictT tm p := by
  simp only [dictFromPy] at h
  cases hc : dictFromPyGo m with
  | error e => rw [hc] at h; simp at h
  | ok tm => rw [hc] at h; simp only [Except.ok.injEq] at h; exact ⟨tm, h.symm⟩

/-- `TypeRegistry.type_of` never produces the `Never` descriptor: every
handler builds its own kind and the fallback builds an `Object`. -/
theorem type_of_ne_never {v : PVal} {r : WBType} (h : type_of v = .ok r) :
    r ≠ NeverType := by
  cases v <;> simp only [type_of] at h
  case vnone => simp only [Except.ok.injEq] at h; rw [← h]; simp [NoneType, NeverType]
  case vbool b => simp only [Except.ok.injEq] at h; rw [← h]; simp [BooleanType, NeverType]
  case vint n => simp only [Except.ok.injEq] at h; rw [← h]; simp [NumberType, NeverType]
  case vstr s => simp only [Except.ok.injEq] at h; rw [← h]; simp [TextType, NeverType]
  case vlist xs => obtain ⟨e, rfl⟩ := listFromPy_shape h; simp [NeverType]
  case vtuple xs => obtain ⟨e, rfl⟩ := listFromPy_shape h; simp [NeverType]
  case vset xs => obtain ⟨e, rfl⟩ := listFromPy_shape h; simp [NeverType]
  case vfrozenset xs => obtain ⟨e, rfl⟩ := listFromPy_shape h; simp [NeverType]
  case vdict m => obtain ⟨tm, rfl⟩ := dictFromPy_shape h; simp [NeverType]
  case vobj c => simp only [Except.ok.injEq] at h; rw [← h]; simp [NeverType]

theorem union_finish_ne_never (res : List WBType) (uc : Nat) :
    union_finish res uc ≠ NeverType := by
  simp [union_finish, UnionType_ofList, NeverType]

/- ## C10 amended -/

/-- C10, amended.  If a union containing an `Unknown` member *returns*
on a non-`None` value, the result is never the `Never` descriptor (when
no member accepts, the consumed placeholder resolves through
`type_of`, which never returns `Never`) — but the assignment may raise,
since `type_of` does not always succeed (see the counterexample). -/
theorem union_with_unknown_ok_not_never (ms : List WBType) (v : PVal)
    (r : WBType) (hm : UnknownType ∈ ms) (hv : v ≠ PVal.vnone)
    (h : assign (.union ms) v = .ok r) :
    typeEq r NeverType = false := by
  simp only [assign, union_assign] at h
  cases hs : unionScanGo ms v [] false 0 with
  | error e => rw [hs] at h; simp at h
  | ok t =>
    obtain ⟨res, va, u⟩ := t
    rw [hs] at h
    have hvau := unionScanGo_unknown_mem ms v [] false 0 res va u
      (Or.inr (Or.inl hm)) hs
    cases va with
    | true =>
      simp only [reduceIte, Except.ok.injEq] at h
      rw [← h]
      exact typeEq_never_false_of_ne (union_finish_ne_never _ _)
    | false =>
      have hu : ¬ (u = 0) := by
        rcases hvau with hva | hua
        · simp at hva
        · omega
      simp only [Bool.false_eq_true, reduceIte, hu, unknown_assign, hv] at h
      cases ht : type_of v with
      | error e => rw [ht] at h; simp at h
      | ok nt =>
        rw [ht] at h
        have : typeEq nt NeverType = false :=
          typeEq_never_false_of_ne (type_of_ne_never ht)
        simp only [this, Bool.false_eq_true, reduceIte, Except.ok.injEq] at h
        rw [← h]
        exact typeEq_never_false_of_ne (union_finish_ne_never _ _)

/-- Witness for the amended C10: `Union([Unknown]).assign(1)` resolves
the placeholder to `Number`. -/
theorem union_with_unknown_ok_not_never_witness :
    typeEq (.union [NumberType]) NeverType = false := by
  apply union_with_unknown_ok_not_never [UnknownType] (.vint 1)
  · exact List.mem_singleton.mpr rfl
  · simp
  · simp +decide [assign, union_assign, unionScanGo, unknown_assign, type_of,
      union_finish, UnionType_ofList, pysort, flatten_types,
      List.insertionSort, List.orderedInsert, isUnknown, typeEq, to_json,
      to_jsonL, pyEq, pyDictSub, pyKeysSub, pyLookupEq, NeverType, NumberType,
      UnknownType]

/- ## C3 amended: totality of `assign` away from inference -/

/-- Is the policy `UNRESTRICTED`? -/
def policy_unrestricted : KeyPolicy → Bool
  | .UNRESTRICTED => true
  | _ => false

mutual
/-- Descriptors that can never trigger `TypeRegistry.type_of` during
`assign`: no `Unknown` anywhere and no `UNRESTRICTED` dict. -/
def tame : WBType → Bool
  | .unknown => false
  | .union ms => tameL ms
  | .listT e => tame e
  | .dictT tm p => !(policy_unrestricted p) && tameD tm
  | _ => true
def tameL : List WBType → Bool
  | [] => true
  | t :: r => tame t && tameL r
def tameD : List (String × WBType) → Bool
  | [] => true
  | (_, t) :: r => tame t && tameD r
end

theorem tameL_iff {l : List WBType} :
    tameL l = true ↔ ∀ t ∈ l, tame t = true := by
  induction l with
  | nil => simp [tameL]
  | cons t r ih => simp [tameL, ih]

theorem tameL_append {a b : List WBType} :
    tameL (a ++ b) = true ↔ tameL a = true ∧ tameL b = true := by
  simp [tameL_iff]
  constructor
  · intro h; exact ⟨fun t ht => h t (Or.inl ht), fun t ht => h t (Or.inr ht)⟩
  · rintro ⟨h1, h2⟩ t (ht | ht)
    · exact h1 t ht
    · exact h2 t ht

theorem tame_not_unknown {t : WBType} (h : tame t = true) : isUnknown t = false := by
  cases t <;> simp [isUnknown] <;> simp [tame] at h

theorem tameL_flatten : ∀ (l : List WBType), tameL l = true →
    tameL (flatten_types l) = true := by
  intro l
  induction l using flatten_types.induct with
  | case1 => simp [flatten_types]
  | case2 ms rest ih1 ih2 =>
    intro h
    rw [tameL] at h
    simp only [Bool.and_eq_true] at h
    rw [tame] at h
    simp only [flatten_types]
    exact tameL_append.mpr ⟨ih1 h.1, ih2 h.2⟩
  | case3 t rest hnu ih =>
    intro h
    rw [tameL] at h
    simp only [Bool.and_eq_true] at h
    rw [flatten_types.eq_def]
    cases t <;> simp_all [tameL]

theorem tameL_pysort {l : List WBType} (h : tameL l = true) :
    tameL (pysort l) = true :=
  tameL_iff.mpr fun t ht =>
    tameL_iff.mp h t ((List.perm_insertionSort uLE l).mem_iff.mp ht)

theorem tame_UnionType_ofList {l : List WBType} (h : tameL l = true) :
    tame (UnionType_ofList l) = true := by
  rw [UnionType_ofList, tame]
  exact tameL_pysort (tameL_flatten _ h)

theorem tame_union_finish {res : List WBType} (h : tameL res = true) :
    tame (union_finish res 0) = true := by
  rw [union_finish]
  apply tame_UnionType_ofList
  apply tameL_pysort
  apply tameL_flatten
  simpa using h

/-- Under `EXACT`/`SUBSET` the second dict loop only checks keys: it
either fails (`Never`) or returns `new_type_map` unchanged. -/
theorem dictLoop2_ES (pym : List (String × PVal)) (ntm : List (String × WBType))
    (p : KeyPolicy) (hp : p ≠ .UNRESTRICTED) :
    dictLoop2 pym ntm p = .ok none ∨ dictLoop2 pym ntm p = .ok (some ntm) := by
  induction pym with
  | nil => right; simp [dictLoop2]
  | cons kv rest ih =>
    obtain ⟨key, pv⟩ := kv
    have hes : (p == KeyPolicy.EXACT || p == KeyPolicy.SUBSET) = true := by
      cases p <;> simp_all
    rw [dictLoop2.eq_def]
    by_cases hk : (ntm.lookup key).isSome = true
    · simp only [hk, reduceIte]
      exact ih
    · left
      simp only [hk, Bool.false_eq_true, reduceIte, hes]

theorem wsize_mem_le {m : WBType} {ms : List WBType} (h : m ∈ ms) :
    wsize m ≤ wsizeL ms := by
  induction ms with
  | nil => simp at h
  | cons a r ih =>
    rcases List.mem_cons.mp h with h1 | h1
    · subst h1; simp [wsizeL]; omega
    · have := ih h1; simp [wsizeL]; omega

theorem psize_mem_le {x : PVal} {xs : List PVal} (h : x ∈ xs) :
    psize x ≤ psizeL xs := by
  induction xs with
  | nil => simp at h
  | cons a r ih =>
    rcases List.mem_cons.mp h with h1 | h1
    · subst h1; simp [psizeL]; omega
    · have := ih h1; simp [psizeL]; omega

theorem psize_dmem_le {k : String} {pv : PVal} {pym : List (String × PVal)}
    (h : (k, pv) ∈ pym) : psize pv ≤ psizeD pym := by
  induction pym with
  | nil => simp at h
  | cons kv r ih =>
    obtain ⟨k2, v2⟩ := kv
    rcases List.mem_cons.mp h with h1 | h1
    · rw [Prod.mk.injEq] at h1
      rw [← h1.2]
      simp [psizeD]; omega
    · have := ih h1; simp [psizeD]; omega

/-- The union scan returns normally on tame members, given that each
member assignment returns normally with a tame result. -/
theorem scanGo_tame (ms : List WBType) (v : PVal) :
    ∀ res valid uc, tameL ms = true → tameL res = true →
    (∀ m, m ∈ ms → ∃ r, assign m v = .ok r ∧ tame r = true) →
    ∃ res2 va, unionScanGo ms v res valid uc = .ok (res2, va, uc) ∧
      tameL res2 = true := by
  induction ms with
  | nil =>
      intro res valid uc _ hres _
      exact ⟨res, valid, by simp [unionScanGo], hres⟩
  | cons m rest ih =>
      intro res valid uc hms hres H
      rw [tameL] at hms
      simp only [Bool.and_eq_true] at hms
      have H2 : ∀ m2, m2 ∈ rest → ∃ r, assign m2 v = .ok r ∧ tame r = true :=
        fun m2 hm => H m2 (List.mem_cons_of_mem _ hm)
      have hres1 : tameL (res ++ [m]) = true :=
        tameL_append.mpr ⟨hres, by simp [tameL, hms.1]⟩
      cases valid with
      | true =>
          obtain ⟨res2, va, hsc, h2⟩ := ih (res ++ [m]) true uc hms.2 hres1 H2
          exact ⟨res2, va, by simp only [unionScanGo, reduceIte]; exact hsc, h2⟩
      | false =>
          obtain ⟨nt, hnt, htann⟩ := H m (List.mem_cons_self m rest)
          by_cases hn : typeEq nt NeverType = true
          · obtain ⟨res2, va, hsc, h2⟩ := ih (res ++ [m]) false uc hms.2 hres1 H2
            exact ⟨res2, va, by
              simp only [unionScanGo, Bool.false_eq_true, reduceIte,
                tame_not_unknown hms.1, hnt, hn]
              exact hsc, h2⟩
          · have hres2 : tameL (res ++ [nt]) = true :=
              tameL_append.mpr ⟨hres, by simp [tameL, htann]⟩
            obtain ⟨res2, va, hsc, h2⟩ := ih (res ++ [nt]) true uc hms.2 hres2 H2
            exact ⟨res2, va, by
              simp only [unionScanGo, Bool.false_eq_true, reduceIte,
                tame_not_unknown hms.1, hnt, hn]
              exact hsc, h2⟩

/-- The per-element fold of `ListType.assign` returns normally when each
element assignment (against any tame receiver) returns normally. -/
theorem listFold_tame (xs : List PVal) :
    ∀ e, tame e = true →
    (∀ t x, x ∈ xs → tame t = true → ∃ r, assign t x = .ok r ∧ tame r = true) →
    ∃ r, listFold e xs = .ok r ∧ tame r = true := by
  induction xs with
  | nil =>
      intro e h _
      exact ⟨.listT e, by simp [listFold], by rw [tame]; exact h⟩
  | cons x rest ih =>
      intro e h H
      obtain ⟨ne, hne, htn⟩ := H e x (List.mem_cons_self x rest) h
      by_cases hn : typeEq ne NeverType = true
      · exact ⟨NeverType, by simp [listFold, hne, hn], rfl⟩
      · obtain ⟨r, hr, ht⟩ := ih ne htn
          (fun t x2 hx2 ht2 => H t x2 (List.mem_cons_of_mem _ hx2) ht2)
        exact ⟨r, by simp only [listFold, hne, hn, Bool.false_eq_true,
          reduceIte]; exact hr, ht⟩

/-- The key search of the first dict loop returns normally when the
receiver's value assignment returns normally on every dict value. -/
theorem dictFindAssign_tame (key : String) (t : WBType)
    (pym : List (String × PVal)) :
    (∀ pv, (∃ k, (k, pv) ∈ pym) → ∃ r, assign t pv = .ok r ∧ tame r = true) →
    dictFindAssign key t pym = .ok none ∨
    ∃ nt, dictFindAssign key t pym = .ok (some nt) ∧ tame nt = true := by
  induction pym with
  | nil => intro _; left; simp [dictFindAssign]
  | cons kv rest ih =>
      intro H
      obtain ⟨k2, pv⟩ := kv
      by_cases hk : (key == k2) = true
      · obtain ⟨nt, hnt, htn⟩ := H pv ⟨k2, List.mem_cons_self _ _⟩
        right
        exact ⟨nt, by simp only [dictFindAssign, hk, reduceIte, hnt], htn⟩
      · rcases ih (fun pv2 hpv2 =>
            H pv2 (hpv2.imp fun k hm => List.mem_cons_of_mem _ hm))
          with h1 | ⟨nt, h1, h2⟩
        · left
          simp only [dictFindAssign, hk, Bool.false_eq_true, reduceIte]
          exact h1
        · right
          exact ⟨nt, by simp only [dictFindAssign, hk, Bool.false_eq_true,
            reduceIte]; exact h1, h2⟩

/-- The first dict loop returns normally on a tame type map, given that
the assignments it performs (values and the `None` probe) return
normally with tame results. -/
theorem dictLoop1_tame (pym : List (String × PVal)) (p : KeyPolicy)
    (H : ∀ t pv, tame t = true →
        (pv = PVal.vnone ∨ ∃ k, (k, pv) ∈ pym) →
        ∃ r, assign t pv = .ok r ∧ tame r = true) :
    ∀ tm, tameD tm = true →
    dictLoop1 tm pym p = .ok none ∨
    ∃ ntm, dictLoop1 tm pym p = .ok (some ntm) ∧ tameD ntm = true := by
  intro tm
  induction tm with
  | nil => intro _; right; exact ⟨[], by simp [dictLoop1], rfl⟩
  | cons kt rest ih =>
      intro h
      obtain ⟨key, t⟩ := kt
      rw [tameD] at h
      simp only [Bool.and_eq_true] at h
      rcases dictFindAssign_tame key t pym
          (fun pv hpv => H t pv h.1 (.inr hpv)) with hf | ⟨nt, hf, htn⟩
      · obtain ⟨nt2, hnt2, htn2⟩ := H t PVal.vnone h.1 (.inl rfl)
        by_cases hn : typeEq nt2 NeverType = true
        · by_cases hpe : (p == KeyPolicy.EXACT) = true
          · left; simp [dictLoop1, hf, hnt2, hn, hpe]
          · rcases ih h.2 with h1 | ⟨ntm, h1, h2⟩
            · left; simp [dictLoop1, hf, hnt2, hn, hpe, h1]
            · right
              refine ⟨(key, t) :: ntm, ?_, ?_⟩
              · simp [dictLoop1, hf, hnt2, hn, hpe, h1]
              · rw [tameD]; simp [h.1, h2]
        · rcases ih h.2 with h1 | ⟨ntm, h1, h2⟩
          · left; simp [dictLoop1, hf, hnt2, hn, h1]
          · right
            refine ⟨(key, nt2) :: ntm, ?_, ?_⟩
            · simp [dictLoop1, hf, hnt2, hn, h1]
            · rw [tameD]; simp [htn2, h2]
      · by_cases hn : typeEq nt NeverType = true
        · left; simp [dictLoop1, hf, hn]
        · rcases ih h.2 with h1 | ⟨ntm, h1, h2⟩
          · left; simp [dictLoop1, hf, hn, h1]
          · right
            refine ⟨(key, nt) :: ntm, ?_, ?_⟩
            · simp [dictLoop1, hf, hn, h1]
            · rw [tameD]; simp [htn, h2]

/-- One step of the totality argument: at a fixed value `v`, `assign`
returns normally with a tame result on every tame receiver, using as
hypothesis totality at all structurally smaller values.  The inner
induction is on the size of the receiver (a union member is smaller
than the union). -/
theorem assign_tame_step (v : PVal)
    (IH : ∀ v2, psize v2 < psize v → ∀ t2, tame t2 = true →
        ∃ r, assign t2 v2 = .ok r ∧ tame r = true) :
    ∀ k t, wsize t ≤ k → tame t = true →
    ∃ r, assign t v = .ok r ∧ tame r = true := by
  intro k
  induction k with
  | zero =>
      intro t hw _
      exact absurd hw (by have := wsize_pos t; omega)
  | succ k ihk =>
      intro t hw ht
      cases t with
      | never => exact ⟨NeverType, by simp [assign], rfl⟩
      | any =>
          by_cases hv : v = PVal.vnone
          · exact ⟨NeverType, by simp [assign, hv], rfl⟩
          · exact ⟨AnyType, by simp [assign, hv], rfl⟩
      | unknown => rw [tame] at ht; exact absurd ht (by simp)
      | pynone =>
          by_cases hv : v = PVal.vnone
          · exact ⟨NoneType, by simp [assign, hv], rfl⟩
          · exact ⟨NeverType, by simp [assign, hv], rfl⟩
      | text =>
          exact ⟨(match v with | .vstr _ => TextType | _ => NeverType),
            by cases v <;> simp [assign], by cases v <;> rfl⟩
      | number =>
          exact ⟨(match v with | .vint _ => NumberType | _ => NeverType),
            by cases v <;> simp [assign], by cases v <;> rfl⟩
      | boolean =>
          exact ⟨(match v with | .vbool _ => BooleanType | _ => NeverType),
            by cases v <;> simp [assign], by cases v <;> rfl⟩
      | const c =>
          by_cases hc : pyEq c v = true
          · exact ⟨.const c, by simp [assign, hc], rfl⟩
          · exact ⟨NeverType, by simp [assign, hc], rfl⟩
      | object cn =>
          by_cases hc : py_class_name v = cn
          · exact ⟨.object cn, by simp [assign, hc], rfl⟩
          · exact ⟨NeverType, by simp [assign, hc], rfl⟩
      | union ms =>
          rw [tame] at ht
          have Hm : ∀ m, m ∈ ms → ∃ r, assign m v = .ok r ∧ tame r = true := by
            intro m hm
            have h1 : wsize m ≤ k := by
              have h2 := wsize_mem_le hm
              simp only [wsize] at hw
              omega
            exact ihk m h1 (tameL_iff.mp ht m hm)
          obtain ⟨res2, va, hscan, hres2⟩ := scanGo_tame ms v [] false 0 ht rfl Hm
          cases va with
          | true =>
              exact ⟨union_finish res2 0, by simp [assign, union_assign, hscan],
                tame_union_finish hres2⟩
          | false =>
              exact ⟨NeverType, by simp [assign, union_assign, hscan], rfl⟩
      | listT e =>
          rw [tame] at ht
          cases v with
          | vlist xs =>
              obtain ⟨r, hr, htr⟩ := listFold_tame xs e ht (fun t2 x hx ht2 =>
                IH x (by have := psize_mem_le hx; simp only [psize]; omega) t2 ht2)
              exact ⟨r, by simp [assign, hr], htr⟩
          | vtuple xs =>
              obtain ⟨r, hr, htr⟩ := listFold_tame xs e ht (fun t2 x hx ht2 =>
                IH x (by have := psize_mem_le hx; simp only [psize]; omega) t2 ht2)
              exact ⟨r, by simp [assign, hr], htr⟩
          | vset xs =>
              obtain ⟨r, hr, htr⟩ := listFold_tame xs e ht (fun t2 x hx ht2 =>
                IH x (by have := psize_mem_le hx; simp only [psize]; omega) t2 ht2)
              exact ⟨r, by simp [assign, hr], htr⟩
          | vfrozenset xs =>
              obtain ⟨r, hr, htr⟩ := listFold_tame xs e ht (fun t2 x hx ht2 =>
                IH x (by have := psize_mem_le hx; simp only [psize]; omega) t2 ht2)
              exact ⟨r, by simp [assign, hr], htr⟩
          | vnone => exact ⟨NeverType, by simp [assign], rfl⟩
          | vbool b => exact ⟨NeverType, by simp [assign], rfl⟩
          | vint n => exact ⟨NeverType, by simp [assign], rfl⟩
          | vstr s => exact ⟨NeverType, by simp [assign], rfl⟩
          | vdict m => exact ⟨NeverType, by simp [assign], rfl⟩
          | vobj c => exact ⟨NeverType, by simp [assign], rfl⟩
      | dictT tm p =>
          rw [tame] at ht
          simp only [Bool.and_eq_true, Bool.not_eq_eq_eq_not, Bool.not_true] at ht
          have hp : p ≠ .UNRESTRICTED := by
            intro hcon
            rw [hcon] at ht
            simp [policy_unrestricted] at ht
          have htm : tameD tm = true := ht.2
          cases v with
          | vdict pym =>
              have H : ∀ t2 pv, tame t2 = true →
                  (pv = PVal.vnone ∨ ∃ k2, (k2, pv) ∈ pym) →
                  ∃ r, assign t2 pv = .ok r ∧ tame r = true := by
                intro t2 pv ht2 hpv
                rcases hpv with rfl | ⟨k2, hk2⟩
                · exact IH PVal.vnone
                    (by simp only [psize]; omega) t2 ht2
                · exact IH pv
                    (by have := psize_dmem_le hk2; simp only [psize]; omega) t2 ht2
              rcases dictLoop1_tame pym p H tm htm with h1 | ⟨ntm, h1, hntm⟩
              · exact ⟨NeverType, by simp [assign, h1], rfl⟩
              · rcases dictLoop2_ES pym ntm p hp with h2 | h2
                · exact ⟨NeverType, by simp [assign, h1, h2], rfl⟩
                · refine ⟨.dictT ntm p, by simp [assign, h1, h2], ?_⟩
                  rw [tame]
                  simp only [Bool.and_eq_true, Bool.not_eq_eq_eq_not, Bool.not_true]
                  refine ⟨?_, hntm⟩
                  cases p with
                  | EXACT => rfl
                  | SUBSET => rfl
                  | UNRESTRICTED => exact absurd rfl hp
          | vnone => exact ⟨NeverType, by simp [assign], rfl⟩
          | vbool b => exact ⟨NeverType, by simp [assign], rfl⟩
          | vint n => exact ⟨NeverType, by simp [assign], rfl⟩
          | vstr s => exact ⟨NeverType, by simp [assign], rfl⟩
          | vlist xs => exact ⟨NeverType, by simp [assign], rfl⟩
          | vtuple xs => exact ⟨NeverType, by simp [assign], rfl⟩
          | vset xs => exact ⟨NeverType, by simp [assign], rfl⟩
          | vfrozenset xs => exact ⟨NeverType, by simp [assign], rfl⟩
          | vobj c => exact ⟨NeverType, by simp [assign], rfl⟩

/-- Totality of `assign` on tame receivers, by strong induction on the
size of the assigned value. -/
theorem assign_tame_all : ∀ n v t, psize v ≤ n → tame t = true →
    ∃ r, assign t v = .ok r ∧ tame r = true := by
  intro n
  induction n with
  | zero =>
      intro v t hv ht
      exact assign_tame_step v
        (fun v2 hv2 t2 ht2 => absurd hv2 (by omega))
        (wsize t) t le_rfl ht
  | succ n ihn =>
      intro v t hv ht
      exact assign_tame_step v
        (fun v2 hv2 t2 ht2 => ihn v2 t2 (by omega) ht2)
        (wsize t) t le_rfl ht

theorem assign_tame (t : WBType) (v : PVal) (h : tame t = true) :
    ∃ r, assign t v = .ok r ∧ tame r = true :=
  assign_tame_all (psize v) v t le_rfl h

/-- C3, amended.  An ordinary mismatch is returned as the `Never`
descriptor and `assign` always returns — for every receiver free of
`Unknown` members and of `UNRESTRICTED` dicts.  (Without that
restriction `assign` can raise; see the counterexample.) -/
theorem assign_total_without_inference (t : WBType) (v : PVal)
    (h : tame t = true) : ∃ r, assign t v = .ok r :=
  (assign_tame t v h).imp fun _ hr => hr.1

/-- Witness for the amended C3: a `SUBSET` dict receiver on a
mismatching value returns (with `Never`), it does not raise. -/
theorem assign_total_without_inference_witness :
    ∃ r, assign (.dictT [("a", NumberType)] .SUBSET) (.vdict [("b", .vint 2)]) = .ok r :=
  assign_total_without_inference _ _ rfl

/-- C7.  Canonical-order invariance: for distinct descriptors `A` and
`B`, `UnionType([A, B]) == UnionType([B, A])` — the constructor flattens
and sorts the member list by its printed form, whose key is injective,
so both orders produce the same canonical member list (the two unions
are equal outright). -/
theorem union_order_invariance (A B : WBType) (hne : A ≠ B) :
    type_eq (UnionType_ofList [A, B]) (UnionType_ofList [B, A]) := by
  left
  unfold UnionType_ofList
  have h1 : flatten_types [A, B] = flatten_types [A] ++ flatten_types [B] :=
    flatten_types_append [A] [B]
  have h2 : flatten_types [B, A] = flatten_types [B] ++ flatten_types [A] :=
    flatten_types_append [B] [A]
  rw [h1, h2, pysort_eq_of_perm List.perm_append_comm]

/-- Witness for C7 at `A = Number`, `B = Text`. -/
theorem union_order_invariance_witness :
    NumberType ≠ TextType ∧
    type_eq (UnionType_ofList [NumberType, TextType])
      (UnionType_ofList [TextType, NumberType]) :=
  ⟨by simp [NumberType, TextType],
   union_order_invariance NumberType TextType (by simp [NumberType, TextType])⟩

/-- C4.  The union member scan: (1) the first non-`Unknown` member whose
own `assign` is not `Never` wins — its narrowed result replaces it,
earlier rejecting members and later members are kept unchanged, and the
skipped `Unknown` placeholders are preserved in the rebuilt union;
(2) if no member accepts and there were no `Unknown` placeholders the
union is `Never`; (3) otherwise one `Unknown` is consumed and resolved by
inference on the value, the remaining count being re-appended;
(4) if that inference fails (`v` is `None`) the union is `Never`. -/
theorem union_assign_scan_characterization (ms : List WBType) (v : PVal) :
    (∀ pre am post nt,
        ms = pre ++ am :: post →
        (∀ m ∈ pre, isUnknown m = true ∨
          ∃ n, assign m v = .ok n ∧ typeEq n NeverType = true) →
        isUnknown am = false →
        assign am v = .ok nt →
        typeEq nt NeverType = false →
        assign (.union ms) v =
          .ok (union_finish (nonUnknowns pre ++ nt :: post) (unknownCount pre))) ∧
    ((∀ m ∈ ms, isUnknown m = true ∨
        ∃ n, assign m v = .ok n ∧ typeEq n NeverType = true) →
      unknownCount ms = 0 →
      assign (.union ms) v = .ok NeverType) ∧
    (∀ R, (∀ m ∈ ms, isUnknown m = true ∨
        ∃ n, assign m v = .ok n ∧ typeEq n NeverType = true) →
      1 ≤ unknownCount ms →
      v ≠ PVal.vnone →
      type_of v = .ok R →
      assign (.union ms) v =
        .ok (union_finish (nonUnknowns ms ++ [R]) (unknownCount ms - 1))) ∧
    ((∀ m ∈ ms, isUnknown m = true ∨
        ∃ n, assign m v = .ok n ∧ typeEq n NeverType = true) →
      1 ≤ unknownCount ms →
      v = PVal.vnone →
      assign (.union ms) v = .ok NeverType) := by
  refine ⟨?_, ?_, ?_, ?_⟩
  · intro pre am post nt hms hpre ham hass hnn
    subst hms
    have hscan : unionScanGo (pre ++ am :: post) v [] false 0 =
        .ok (nonUnknowns pre ++ nt :: post, true, unknownCount pre) := by
      rw [unionScanGo_append]
      rw [unionScanGo_rejecting pre v [] 0 hpre]
      simp only [List.nil_append, Nat.zero_add]
      simp only [unionScanGo, Bool.false_eq_true, reduceIte, ham, hass, hnn]
      rw [unionScanGo_valid]
      simp
    simp [assign, union_assign, hscan]
  · intro hall huc
    have hscan : unionScanGo ms v [] false 0 =
        .ok (nonUnknowns ms, false, unknownCount ms) := by
      rw [unionScanGo_rejecting ms v [] 0 hall]; simp
    simp [assign, union_assign, hscan, huc]
  · intro R hall huc hv hR
    have hscan : unionScanGo ms v [] false 0 =
        .ok (nonUnknowns ms, false, unknownCount ms) := by
      rw [unionScanGo_rejecting ms v [] 0 hall]; simp
    have hnn : typeEq R NeverType = false :=
      typeEq_never_false_of_ne (type_of_ne_never hR)
    simp only [assign, union_assign, hscan, Bool.false_eq_true, reduceIte]
    rw [if_neg (by omega : ¬ unknownCount ms = 0)]
    simp only [unknown_assign, if_neg hv, hR, hnn, Bool.false_eq_true, reduceIte]
  · intro hall huc hv
    subst hv
    have hscan : unionScanGo ms PVal.vnone [] false 0 =
        .ok (nonUnknowns ms, false, unknownCount ms) := by
      rw [unionScanGo_rejecting ms PVal.vnone [] 0 hall]; simp
    have hne : typeEq NeverType NeverType = true := (typeEq_never_iff NeverType).mpr rfl
    simp only [assign, union_assign, hscan, Bool.false_eq_true, reduceIte]
    rw [if_neg (by omega : ¬ unknownCount ms = 0)]
    simp only [unknown_assign, reduceIte, hne]

/-- Witness for C4: the first acceptor clause at
`Union([Unknown, Number, Text]).assign(1)` — the skipped `Unknown` is
preserved and `Text` stays unchanged. -/
theorem union_assign_scan_characterization_witness :
    assign (.union [UnknownType, NumberType, TextType]) (.vint 1) =
      .ok (union_finish (nonUnknowns [UnknownType] ++ NumberType :: [TextType])
        (unknownCount [UnknownType])) :=
  (union_assign_scan_characterization [UnknownType, NumberType, TextType]
      (.vint 1)).1
    [UnknownType] NumberType [TextType] NumberType rfl
    (by
      intro m hm
      rw [List.mem_singleton] at hm
      subst hm
      left
      rfl)
    (by rfl)
    (by simp +decide [assign, NumberType])
    (by
      simp +decide [typeEq, to_json, NumberType, NeverType, pyEq, pyDictSub,
        pyKeysSub, pyLookupEq, List.lookup])

/-- C5, amended.  Dict narrowing follows the key policy, with
`UNRESTRICTED` applying its own policy only one level deep: (1) a known
key absent from the value is probed with `None`, and if that narrowing
is `Never` an `EXACT` dict fails outright; (2) under `SUBSET` and
`UNRESTRICTED` the key keeps its original descriptor; (3) a successful
`None` probe keeps the narrowed descriptor under every policy; (4) a key
present in the value narrows its descriptor against the value; (5) a
value key unknown to the map fails the whole assignment under `EXACT`
and `SUBSET`; (6) under `UNRESTRICTED` an unknown mapping value is added
as `DictType(value, policy)` at that level (deeper mappings go through
`type_of`, hence the default `EXACT` policy — see the counterexample);
(7) an unknown non-mapping value is added via `TypeRegistry.type_of`;
(8) the claimed `SUBSET` scenario rejects the unknown key. -/
theorem dict_assign_key_policy :
    (∀ k t rest pym nt,
        dictFindAssign k t pym = .ok none →
        assign t PVal.vnone = .ok nt →
        typeEq nt NeverType = true →
        assign (.dictT ((k, t) :: rest) .EXACT) (.vdict pym) = .ok NeverType) ∧
    (∀ k t rest pym p nt,
        dictFindAssign k t pym = .ok none →
        assign t PVal.vnone = .ok nt →
        typeEq nt NeverType = true →
        p ≠ .EXACT →
        dictLoop1 ((k, t) :: rest) pym p =
          (match dictLoop1 rest pym p with
           | .error e => .error e
           | .ok none => .ok none
           | .ok (some ntm) => .ok (some ((k, t) :: ntm)))) ∧
    (∀ k t rest pym p nt,
        dictFindAssign k t pym = .ok none →
        assign t PVal.vnone = .ok nt →
        typeEq nt NeverType = false →
        dictLoop1 ((k, t) :: rest) pym p =
          (match dictLoop1 rest pym p with
           | .error e => .error e
           | .ok none => .ok none
           | .ok (some ntm) => .ok (some ((k, nt) :: ntm)))) ∧
    (∀ k t pym pv,
        pym.lookup k = some pv →
        dictFindAssign k t pym =
          (match assign t pv with
           | .error e => .error e
           | .ok nt => .ok (some nt))) ∧
    (∀ pym ntm p k pv,
        (k, pv) ∈ pym →
        ntm.lookup k = none →
        p ≠ .UNRESTRICTED →
        dictLoop2 pym ntm p = .ok none) ∧
    (∀ k md rest ntm nt,
        ntm.lookup k = none →
        dictFromPy md .UNRESTRICTED = .ok nt →
        dictLoop2 ((k, .vdict md) :: rest) ntm .UNRESTRICTED =
          dictLoop2 rest (ntm ++ [(k, nt)]) .UNRESTRICTED) ∧
    (∀ k pv rest ntm nt,
        (∀ md, pv ≠ .vdict md) →
        ntm.lookup k = none →
        type_of pv = .ok nt →
        dictLoop2 ((k, pv) :: rest) ntm .UNRESTRICTED =
          dictLoop2 rest (ntm ++ [(k, nt)]) .UNRESTRICTED) ∧
    assign (.dictT [("a", NumberType)] .SUBSET)
        (.vdict [("a", .vint 1), ("b", .vint 2)]) = .ok NeverType := by
  refine ⟨?_, ?_, ?_, ?_, ?_, ?_, ?_, ?_⟩
  · intro k t rest pym nt hf hn hne
    have h1 : dictLoop1 ((k, t) :: rest) pym .EXACT = .ok none := by
      simp [dictLoop1, hf, hn, hne]
    simp [assign, h1]
  · intro k t rest pym p nt hf hn hne hp
    have hpe : (p == KeyPolicy.EXACT) = false := by cases p <;> simp_all
    cases hr : dictLoop1 rest pym p with
    | error e => simp [dictLoop1, hf, hn, hne, hpe, hr]
    | ok o => cases o <;> simp [dictLoop1, hf, hn, hne, hpe, hr]
  · intro k t rest pym p nt hf hn hne
    cases hr : dictLoop1 rest pym p with
    | error e => simp [dictLoop1, hf, hn, hne, hr]
    | ok o => cases o <;> simp [dictLoop1, hf, hn, hne, hr]
  · intro k t pym pv hl
    induction pym with
    | nil => simp [List.lookup] at hl
    | cons kv rest ih =>
        obtain ⟨k2, pv2⟩ := kv
        by_cases hk : (k == k2) = true
        · simp only [List.lookup, hk] at hl
          simp only [Option.some.injEq] at hl
          subst hl
          simp [dictFindAssign, hk]
        · simp only [List.lookup, hk] at hl
          simp only [dictFindAssign, hk, Bool.false_eq_true, reduceIte]
          exact ih hl
  · intro pym
    induction pym with
    | nil => intro ntm p k pv hmem; simp at hmem
    | cons kv rest ih =>
        intro ntm p k pv hmem habs hp
        obtain ⟨k2, pv2⟩ := kv
        have hes : (p == KeyPolicy.EXACT || p == KeyPolicy.SUBSET) = true := by
          cases p <;> simp_all
        by_cases hk : (ntm.lookup k2).isSome = true
        · rcases List.mem_cons.mp hmem with hh | hm
          · rw [Prod.mk.injEq] at hh
            rw [← hh.1, habs] at hk
            simp at hk
          · rw [dictLoop2.eq_def]
            simp only [hk, reduceIte]
            exact ih ntm p k pv hm habs hp
        · rw [dictLoop2.eq_def]
          simp only [hk, Bool.false_eq_true, reduceIte, hes]
  · intro k md rest ntm nt habs hdf
    have hk : (ntm.lookup k).isSome = false := by rw [habs]; rfl
    simp [dictLoop2, hk, hdf]
  · intro k pv rest ntm nt hnd habs hto
    have hk : (ntm.lookup k).isSome = false := by rw [habs]; rfl
    cases pv with
    | vdict md => exact absurd rfl (hnd md)
    | vnone => simp [dictLoop2, hk, hto]
    | vbool b => simp [dictLoop2, hk, hto]
    | vint n => simp [dictLoop2, hk, hto]
    | vstr st => simp [dictLoop2, hk, hto]
    | vlist xs => simp [dictLoop2, hk, hto]
    | vtuple xs => simp [dictLoop2, hk, hto]
    | vset xs => simp [dictLoop2, hk, hto]
    | vfrozenset xs => simp [dictLoop2, hk, hto]
    | vobj c => simp [dictLoop2, hk, hto]
  · simp +decide [assign, dictLoop1, dictLoop2, dictFindAssign, List.lookup,
      typeEq, to_json, to_jsonD, pyEq, pyDictSub, pyKeysSub, pyLookupEq,
      NumberType, NeverType, policy_str]

/-- Witness for the amended C5: an `EXACT` dict with one required key
rejects the empty mapping (the `None` probe of `Number` fails). -/
theorem dict_assign_key_policy_witness :
    assign (.dictT [("a", NumberType)] .EXACT) (.vdict []) = .ok NeverType :=
  dict_assign_key_policy.1 "a" NumberType [] [] NeverType
    (by simp [dictFindAssign])
    (by simp +decide [assign, NumberType])
    ((typeEq_never_iff NeverType).mpr rfl)
